import Mathlib

/-!
Shallow embedding of `cosmic_courier.py` (Cosmic Courier, a turn-based
space-trading game).

Modelling conventions, fixed once for the whole file:
* Python machine integers are `Int`; floating-point modifiers and random
  draws are `Rat`; `int(x)` on a float is truncation toward zero (`pyInt`).
* Python dictionaries keyed by `Good` objects (which hash and compare by
  their `name`) are association lists keyed by the good's name.
* Object references to `Planet`s are planet names (the spec makes names
  unique keys); "p == q" on planets (identity in Python) is name equality.
* Every random draw the interpreter would perform is an explicit parameter
  of the corresponding function, and every interactive input likewise.
  Input that fails to parse in Python leaves the state unchanged and is
  subsumed by the other rejecting branches of each handler.
* Handlers return their new `GameState` together with a structured outcome
  that stands for the human-readable message the Python function returns.
-/

/-- Python `int()` applied to a rational number: truncation toward zero
(for a negative argument this is the ceiling, written here as `-⌊-q⌋`). -/
def pyInt (q : ℚ) : ℤ := if q < 0 then -⌊-q⌋ else ⌊q⌋

/-- Association-list lookup with default, i.e. Python `d.get(k, dflt)`
(and `d[k]` at call sites where the key is known to be present). -/
def lookupD (m : List (String × ℤ)) (k : String) (dflt : ℤ) : ℤ :=
  match m.find? (fun p => p.1 == k) with
  | some p => p.2
  | none => dflt

/-- Python `k in d` on a dictionary. -/
def containsKey (m : List (String × ℤ)) (k : String) : Bool :=
  (m.find? (fun p => p.1 == k)).isSome

/-- Python `d[k] = v`: update the entry in place if the key is present
(dictionaries keep insertion order and hold each key at most once),
otherwise append it. -/
def setKey : List (String × ℤ) → String → ℤ → List (String × ℤ)
  | [], k, v => [(k, v)]
  | a :: t, k, v => if a.1 == k then (a.1, v) :: t else a :: setKey t k v

/-- Python `del d[k]`: drop the (unique) entry holding the key. -/
def delKey : List (String × ℤ) → String → List (String × ℤ)
  | [], _ => []
  | a :: t, k => if a.1 == k then t else a :: delKey t k

/-- Class `Good` of `cosmic_courier.py` (equality and hashing are by name). -/
structure Good where
  name : String
  type : String
  base_price : ℤ
  base_stock : ℤ
deriving DecidableEq, Repr

/-- One entry of an event's `effects` list, a dict with keys
`type`, `good_type`, `multiplier`. -/
structure Effect where
  type : String
  good_type : String
  multiplier : ℚ
deriving DecidableEq, Repr

/-- An event dict (template in `game_data["events"]`, or the mutable copy
held in `GameState.active_events`): keys `name`, `description`, `duration`,
`effects`. -/
structure Event where
  name : String
  description : String
  duration : ℤ
  effects : List Effect
deriving DecidableEq, Repr

/-- Class `Mission`; `origin` and `destination` are planet references in
Python, modelled by the planets' (unique) names. -/
structure Mission where
  origin : String
  destination : String
  good : Good
  quantity : ℤ
  reward : ℤ
  faction : String
deriving DecidableEq, Repr

/-- Class `Market`: the mutable price/stock/fuel-price data of one planet.
The Python object also stores references to the planet, goods catalog,
modifier table and travel options; those are the immutable configuration,
which this embedding passes separately as `Config`. -/
structure Market where
  prices : List (String × ℤ)
  stock : List (String × ℤ)
  fuel_price : ℤ
deriving DecidableEq, Repr

/-- Class `Planet`. -/
structure Planet where
  name : String
  tech_level : ℤ
  faction : String
  market : Market
  mission_board : List Mission
deriving DecidableEq, Repr

/-- Class `Ship`.  The derived stats (`cargo_hold_size`, `fuel_capacity`,
`engine_efficiency`) are recomputed from the levels and the configuration
and therefore not stored. -/
structure Ship where
  cargo_hold_level : ℤ
  fuel_tank_level : ℤ
  engine_level : ℤ
  cargo : List (String × ℤ)
  fuel : ℤ
deriving DecidableEq, Repr

/-- Class `Player`. `location` is a planet reference in Python, modelled by
the planet's name; `reputation` is a dict faction → score. -/
structure Player where
  name : String
  ship : Ship
  location : String
  credits : ℤ
  display_mode : String
  reputation : List (String × ℤ)
  current_mission : Option Mission
  debt : ℤ
deriving DecidableEq, Repr

/-- Class `GameState` (the `game_data` configuration is passed separately
as `Config` since it is immutable after setup). -/
structure GameState where
  player : Player
  planets : List Planet
  active_events : List Event
deriving DecidableEq, Repr

/-- One entry of `game_data["random_events"]`: a description and an effect
dict with keys `type` and `amount` (an inclusive integer range). -/
structure RandomEvent where
  description : String
  effect_type : String
  amount_min : ℤ
  amount_max : ℤ
deriving DecidableEq, Repr

/-- One entry of `game_data["mission_templates"]`. -/
structure MissionTemplate where
  good_types : List String
  min_quantity : ℤ
  max_quantity : ℤ
  reward_multiplier : ℚ
deriving DecidableEq, Repr

/-- `game_data["travel_options"]`. -/
structure TravelOptions where
  base_fuel_cost_per_unit : ℚ
  base_fuel_price : ℚ
  event_trigger_chance : ℚ
  random_event_chance : ℚ

/-- One planet entry of `game_data["planets"]`. -/
structure PlanetInit where
  name : String
  tech_level : ℤ
  faction : String

/-- The immutable configuration loaded from `game_data.json`.
`tech_level_modifiers` maps a tech level and a good type (or `"fuel"`) to a
multiplier; `distance` is the symmetric `distance_matrix`.  The three
`ship_upgrades_*` lists hold, per level, the pair (size / capacity /
efficiency, cost). -/
structure Config where
  goods : List Good
  tech_level_modifiers : ℤ → String → ℚ
  planet_inits : List PlanetInit
  travel_options : TravelOptions
  distance : String → String → ℚ
  events : List Event
  random_events : List RandomEvent
  mission_templates : List MissionTemplate
  ship_upgrades_cargo_hold : List (ℤ × ℤ)
  ship_upgrades_fuel_tank : List (ℤ × ℤ)
  ship_upgrades_engine : List (ℚ × ℤ)
  interest_rate : ℚ
  loan_amount : ℤ
  win_credits : ℤ
  max_debt : ℤ
  start_credits : ℤ
  starting_planet : String
  factions : List String

/-- Placeholder dictionary used as the (never semantically relevant)
default of positional lookups that Python performs on indices it has
already bounds-checked. -/
def noEvent : Event := { name := "", description := "", duration := 0, effects := [] }

/-- Placeholder random-event template (its effect type is not `fuel_loss`). -/
def noRandomEvent : RandomEvent :=
  { description := "", effect_type := "", amount_min := 0, amount_max := 0 }

/-- Placeholder mission template. -/
def noTemplate : MissionTemplate :=
  { good_types := [], min_quantity := 1, max_quantity := 1, reward_multiplier := 0 }

/-- Placeholder good. -/
def noGood : Good := { name := "", type := "", base_price := 0, base_stock := 0 }

/-- Placeholder market. -/
def emptyMarket : Market := { prices := [], stock := [], fuel_price := 0 }

/-- Placeholder planet. -/
def noPlanet : Planet :=
  { name := "", tech_level := 0, faction := "", market := emptyMarket, mission_board := [] }

/-- Placeholder mission. -/
def noMission : Mission :=
  { origin := "", destination := "", good := noGood, quantity := 0, reward := 0, faction := "" }

/-- Method `Ship._update_stats_from_levels`, cargo-hold part: the size of the
hold at the ship's current cargo-hold level (levels are 1-based). -/
def cargo_hold_size (cfg : Config) (sh : Ship) : ℤ :=
  (cfg.ship_upgrades_cargo_hold.getD (sh.cargo_hold_level - 1).toNat (0, 0)).1

/-- Fuel-tank capacity at the ship's current fuel-tank level. -/
def fuel_capacity (cfg : Config) (sh : Ship) : ℤ :=
  (cfg.ship_upgrades_fuel_tank.getD (sh.fuel_tank_level - 1).toNat (0, 0)).1

/-- Engine efficiency at the ship's current engine level. -/
def engine_efficiency (cfg : Config) (sh : Ship) : ℚ :=
  (cfg.ship_upgrades_engine.getD (sh.engine_level - 1).toNat (0, 0)).1

/-- Method `Ship.get_cargo_count`: the sum of all cargo quantities. -/
def get_cargo_count (c : List (String × ℤ)) : ℤ :=
  (c.map (fun p => p.2)).sum

/-- Method `Ship.add_cargo` (acting on the cargo dictionary; `hold` is the
ship's current `cargo_hold_size`).  Leaves the cargo unchanged when the
quantity does not fit. -/
def add_cargo (hold : ℤ) (c : List (String × ℤ)) (g : String) (q : ℤ) :
    List (String × ℤ) :=
  if get_cargo_count c + q > hold then c
  else setKey c g (lookupD c g 0 + q)

/-- Method `Ship.remove_cargo`: removes `q` units of `g` if present in at
least that quantity, deleting the entry when it reaches zero; otherwise
leaves the cargo unchanged. -/
def remove_cargo (c : List (String × ℤ)) (g : String) (q : ℤ) :
    List (String × ℤ) :=
  if containsKey c g ∧ lookupD c g 0 ≥ q then
    let c' := setKey c g (lookupD c g 0 - q)
    if lookupD c' g 0 = 0 then delKey c' g else c'
  else c

/-- The price modifier computed by `Market.generate_market_data` for one
good: the tech-level modifier, multiplied in turn by the multiplier of
every `price_modifier` effect of every active event whose `good_type`
matches the good's type. -/
def priceModifierFor (cfg : Config) (tech : ℤ) (g : Good) (active : List Event) : ℚ :=
  active.foldl
    (fun pm ev =>
      ev.effects.foldl
        (fun pm' e =>
          if e.type == "price_modifier" && e.good_type == g.type then pm' * e.multiplier
          else pm')
        pm)
    (cfg.tech_level_modifiers tech g.type)

/-- The random draws consumed by one call to `Market.generate_market_data`:
one `uniform(0.9, 1.1)` price factor and one `uniform(0.8, 1.2)` stock
factor per good (keyed by the good's name), and one `uniform(0.95, 1.05)`
fuel-price factor. -/
structure MarketDraws where
  priceU : String → ℚ
  stockU : String → ℚ
  fuelU : ℚ

/-- Method `Market.generate_market_data` for a planet of tech level `tech`:
price `int(base_price * price_modifier * priceU)`; stock
`max 0 (int(base_stock * stock_modifier * stockU))` with
`stock_modifier = 1 / price_modifier` (fallback 100 when the modifier is
zero); fuel price `int(base_fuel_price * fuel_modifier * fuelU)`. -/
def generate_market_data (cfg : Config) (tech : ℤ) (active : List Event)
    (md : MarketDraws) : Market :=
  { prices := cfg.goods.map (fun g =>
      (g.name, pyInt ((g.base_price : ℚ) * priceModifierFor cfg tech g active * md.priceU g.name)))
    stock := cfg.goods.map (fun g =>
      let pm := priceModifierFor cfg tech g active
      let sm : ℚ := if pm ≠ 0 then 1 / pm else 100
      (g.name, max 0 (pyInt ((g.base_stock : ℚ) * sm * md.stockU g.name))))
    fuel_price := pyInt (cfg.travel_options.base_fuel_price *
      cfg.tech_level_modifiers tech "fuel" * md.fuelU) }

/-- Function `apply_interest`: if the player is in debt, add
`int(debt * interest_rate)` to the debt. -/
def apply_interest (cfg : Config) (s : GameState) : GameState :=
  if s.player.debt > 0 then
    { s with player := { s.player with
        debt := s.player.debt + pyInt ((s.player.debt : ℚ) * cfg.interest_rate) } }
  else s

/-- Function `handle_events` acting on the active-event list: age every
active event by one turn and drop the ones whose duration reached zero;
then, if the random trigger fired (`trig = some i`, with `i` the index of
the template drawn by `random.choice`), append a fresh copy of that
template unless an active event of the same name survives — a duplicate
draw is discarded with no retry. -/
def handle_events_list (cfg : Config) (active : List Event) (trig : Option ℕ) :
    List Event :=
  let kept := (active.map (fun e => { e with duration := e.duration - 1 })).filter
      (fun e => e.duration > 0)
  match trig with
  | none => kept
  | some i =>
    let tmpl := cfg.events.getD i noEvent
    if kept.any (fun e => e.name == tmpl.name) then kept else kept ++ [tmpl]

/-- Function `handle_events` on the game state. -/
def handle_events (cfg : Config) (s : GameState) (trig : Option ℕ) : GameState :=
  { s with active_events := handle_events_list cfg s.active_events trig }

/-- Function `complete_mission`: pay the reward, raise reputation with the
mission's faction by one, remove the delivered cargo, clear the mission.
(Only ever called by the game loop after its destination/cargo guard.) -/
def complete_mission (s : GameState) : GameState :=
  match s.player.current_mission with
  | none => s
  | some m =>
    { s with player := { s.player with
        credits := s.player.credits + m.reward
        reputation := s.player.reputation.map
          (fun p => if p.1 == m.faction then (p.1, p.2 + 1) else p)
        ship := { s.player.ship with
          cargo := remove_cargo s.player.ship.cargo m.good.name m.quantity }
        current_mission := none } }

/-- The mission auto-completion check at the top of `game_loop`: complete
the current mission exactly when the player is at its destination and the
cargo holds at least the required quantity of its good. -/
def missionPhase (s : GameState) : GameState :=
  match s.player.current_mission with
  | some m =>
    if s.player.location = m.destination ∧
        lookupD s.player.ship.cargo m.good.name 0 ≥ m.quantity then
      complete_mission s
    else s
  | none => s

/-- The win condition tested by `game_loop` (lines 290-292). -/
abbrev winCond (cfg : Config) (s : GameState) : Prop :=
  s.player.credits ≥ cfg.win_credits ∧ s.player.debt = 0

/-- The debt-loss condition tested by `game_loop` (lines 294-296). -/
abbrev lossCond (cfg : Config) (s : GameState) : Prop :=
  s.player.debt > cfg.max_debt

/-- The stranding condition tested by `game_loop` (line 298). -/
abbrev strandCond (s : GameState) : Prop :=
  s.player.ship.fuel ≤ 0 ∧ s.player.credits ≤ 0 ∧
    get_cargo_count s.player.ship.cargo = 0

/-- The loan-acceptance branch of `offer_loan`: add the configured loan
amount to both credits and debt. -/
def issue_loan (cfg : Config) (s : GameState) : GameState :=
  { s with player := { s.player with
      credits := s.player.credits + cfg.loan_amount
      debt := s.player.debt + cfg.loan_amount } }

/-- Result of the win/loss/stranding checks of one turn. -/
inductive PhaseResult where
  | won
  | lostToDebt
  | lostToStranding
  | playing (s : GameState)
deriving DecidableEq, Repr

/-- The fixed-order win, debt-loss and stranding checks `game_loop` runs
every turn (lines 289-303): win, then debt loss, then the stranding/loan
offer, whose outcome depends on whether the player accepts the loan. -/
def checkPhase (cfg : Config) (s : GameState) (acceptLoan : Bool) : PhaseResult :=
  if winCond cfg s then .won
  else if lossCond cfg s then .lostToDebt
  else if strandCond s then
    if acceptLoan then .playing (issue_loan cfg s) else .lostToStranding
  else .playing s

/-- Everything `game_loop` does at the start of a turn before reading a
command: advance events, accrue interest, run the mission auto-completion
check, then the win/loss/stranding checks. -/
def preCommand (cfg : Config) (s : GameState) (trig : Option ℕ) (acceptLoan : Bool) :
    PhaseResult :=
  checkPhase cfg (missionPhase (apply_interest cfg (handle_events cfg s trig))) acceptLoan

/-- Outcome of `repay_debt` (one constructor per return message). -/
inductive RepayOutcome where
  | noDebt
  | invalidAmount
  | insufficientCredits
  | repaid
deriving DecidableEq, Repr

/-- Function `repay_debt`: no-op when there is no debt; reject a
non-positive amount; clamp the amount down to the debt; reject if the
clamped amount exceeds the credits; otherwise pay. -/
def repay_debt (s : GameState) (amount : ℤ) : GameState × RepayOutcome :=
  if s.player.debt = 0 then (s, .noDebt)
  else if amount ≤ 0 then (s, .invalidAmount)
  else
    let amt := if amount > s.player.debt then s.player.debt else amount
    if amt > s.player.credits then (s, .insufficientCredits)
    else
      ({ s with player := { s.player with
          credits := s.player.credits - amt
          debt := s.player.debt - amt } }, .repaid)

/-- The display-toggle command of `game_loop` (choice 9). -/
def toggle_display (s : GameState) : GameState :=
  { s with player := { s.player with
      display_mode := if s.player.display_mode == "normal" then "compact" else "normal" } }

/-- The market of the planet the player is at
(Python: `player.location.market`). -/
def marketOf (s : GameState) : Market :=
  match s.planets.find? (fun p => p.name == s.player.location) with
  | some p => p.market
  | none => emptyMarket

/-- The planet the player is at (Python: `player.location`). -/
def currentPlanet (s : GameState) : Planet :=
  match s.planets.find? (fun p => p.name == s.player.location) with
  | some p => p
  | none => noPlanet

/-- Replace the market of the named planet (Python mutates the planet
object in place; planet names are unique keys). -/
def updateMarket (planets : List Planet) (nm : String) (m : Market) : List Planet :=
  planets.map (fun p => if p.name == nm then { p with market := m } else p)

/-- Replace the mission board of the named planet. -/
def updateBoard (planets : List Planet) (nm : String) (b : List Mission) : List Planet :=
  planets.map (fun p => if p.name == nm then { p with mission_board := b } else p)

/-- The random draws consumed by one call to `travel` after a successful
fuel check: the market regeneration draws for the destination, the
`random.random()` draw compared against the event chance, the index drawn
by `random.choice` over `random_events`, and the `random.randint`
fuel-loss amount. -/
structure TravelRand where
  md : MarketDraws
  riskDraw : ℚ
  eventIdx : ℕ
  fuelLossAmt : ℤ

/-- Outcome of `travel` (one constructor per return message). -/
inductive TravelOutcome where
  | cancelled
  | invalidChoice
  | insufficientFuel
  | traveled (fuelCost : ℤ) (fuelLost : Option ℤ)
deriving DecidableEq, Repr

/-- Function `travel`: the destination list is every planet other than the
current one, `choice` is the (already 1-subtracted) menu selection.  With
enough fuel: debit the fuel cost, move, regenerate the destination's
market, multiply the configured event chance by every active
`travel_risk_modifier` effect, and resolve an in-transit fuel-loss event
exactly when the uniform draw falls below that chance.  Without enough
fuel the state is returned unchanged. -/
def travel (cfg : Config) (s : GameState) (choice : ℤ) (tr : TravelRand) :
    GameState × TravelOutcome :=
  let destinations := s.planets.filter (fun p => p.name != s.player.location)
  if choice = destinations.length then (s, .cancelled)
  else if 0 ≤ choice ∧ choice < destinations.length then
    let destination := destinations.getD choice.toNat noPlanet
    let dist := cfg.distance s.player.location destination.name
    let fuel_cost := pyInt (dist * cfg.travel_options.base_fuel_cost_per_unit *
      engine_efficiency cfg s.player.ship)
    if s.player.ship.fuel ≥ fuel_cost then
      let s1 := { s with player := { s.player with
        ship := { s.player.ship with fuel := s.player.ship.fuel - fuel_cost }
        location := destination.name } }
      let s2 := { s1 with planets := (updateMarket s1.planets destination.name
        (generate_market_data cfg destination.tech_level s1.active_events tr.md)) }
      let event_chance := s.active_events.foldl (fun c e =>
        e.effects.foldl (fun c2 ef =>
          if ef.type == "travel_risk_modifier" then c2 * ef.multiplier else c2) c)
        cfg.travel_options.random_event_chance
      if tr.riskDraw < event_chance then
        let ev := cfg.random_events.getD tr.eventIdx noRandomEvent
        if ev.effect_type == "fuel_loss" then
          ({ s2 with player := { s2.player with
              ship := { s2.player.ship with
                fuel := s2.player.ship.fuel - tr.fuelLossAmt } } },
            .traveled fuel_cost (some tr.fuelLossAmt))
        else (s2, .traveled fuel_cost none)
      else (s2, .traveled fuel_cost none)
    else (s, .insufficientFuel)
  else (s, .invalidChoice)

/-- Outcome of `buy_goods`. -/
inductive BuyOutcome where
  | noGoods
  | cancelled
  | invalidChoice
  | invalidQuantity
  | notEnoughStock
  | notEnoughCredits
  | notEnoughSpace
  | bought (quantity cost : ℤ)
deriving DecidableEq, Repr

/-- Function `buy_goods`: the purchasable list is the goods of the market
with positive stock (in market order); after the stock, credit and cargo
space checks the credits are debited, the cargo incremented and the
market's stock decremented. -/
def buy_goods (cfg : Config) (s : GameState) (choice quantity : ℤ) :
    GameState × BuyOutcome :=
  let market := marketOf s
  let tradable := (market.prices.filter (fun p => lookupD market.stock p.1 0 > 0)).map
    (fun p => p.1)
  if tradable.isEmpty then (s, .noGoods)
  else if choice = tradable.length then (s, .cancelled)
  else if 0 ≤ choice ∧ choice < tradable.length then
    let g := tradable.getD choice.toNat ""
    let price := lookupD market.prices g 0
    let stock := lookupD market.stock g 0
    if quantity ≤ 0 then (s, .invalidQuantity)
    else
      let total_cost := price * quantity
      if quantity > stock then (s, .notEnoughStock)
      else if total_cost > s.player.credits then (s, .notEnoughCredits)
      else if get_cargo_count s.player.ship.cargo + quantity >
          cargo_hold_size cfg s.player.ship then (s, .notEnoughSpace)
      else
        ({ s with
          player := { s.player with
            credits := s.player.credits - total_cost
            ship := { s.player.ship with
              cargo := add_cargo (cargo_hold_size cfg s.player.ship)
                s.player.ship.cargo g quantity } }
          planets := updateMarket s.planets s.player.location
            { market with stock := setKey market.stock g (stock - quantity) } },
          .bought quantity total_cost)
  else (s, .invalidChoice)

/-- Outcome of `sell_goods`. -/
inductive SellOutcome where
  | noCargo
  | notBuying
  | cancelled
  | invalidChoice
  | invalidQuantity
  | notEnoughUnits
  | sold (quantity sale : ℤ)
deriving DecidableEq, Repr

/-- Function `sell_goods`: the sellable list is the cargo whose goods this
market prices (in cargo order); after the quantity checks the credits are
credited, the cargo decremented and the market's stock incremented. -/
def sell_goods (cfg : Config) (s : GameState) (choice quantity : ℤ) :
    GameState × SellOutcome :=
  let market := marketOf s
  if s.player.ship.cargo.isEmpty then (s, .noCargo)
  else
    let sellable := (s.player.ship.cargo.filter
      (fun p => containsKey market.prices p.1)).map (fun p => p.1)
    if sellable.isEmpty then (s, .notBuying)
    else if choice = sellable.length then (s, .cancelled)
    else if 0 ≤ choice ∧ choice < sellable.length then
      let g := sellable.getD choice.toNat ""
      let price := lookupD market.prices g 0
      let current := lookupD s.player.ship.cargo g 0
      if quantity ≤ 0 then (s, .invalidQuantity)
      else if quantity > current then (s, .notEnoughUnits)
      else
        let total_sale := price * quantity
        ({ s with
          player := { s.player with
            credits := s.player.credits + total_sale
            ship := { s.player.ship with
              cargo := remove_cargo s.player.ship.cargo g quantity } }
          planets := updateMarket s.planets s.player.location
            { market with
              stock := setKey market.stock g (lookupD market.stock g 0 + quantity) } },
          .sold quantity total_sale)
    else (s, .invalidChoice)

/-- Outcome of `refuel_ship`. -/
inductive RefuelOutcome where
  | alreadyFull
  | invalidAmount
  | overCapacity
  | notEnoughCredits
  | refueled
deriving DecidableEq, Repr

/-- Function `refuel_ship`. -/
def refuel_ship (cfg : Config) (s : GameState) (quantity : ℤ) :
    GameState × RefuelOutcome :=
  let fuel_price := (marketOf s).fuel_price
  let needed := fuel_capacity cfg s.player.ship - s.player.ship.fuel
  if needed = 0 then (s, .alreadyFull)
  else if quantity ≤ 0 then (s, .invalidAmount)
  else if quantity > needed then (s, .overCapacity)
  else
    let total_cost := fuel_price * quantity
    if total_cost > s.player.credits then (s, .notEnoughCredits)
    else
      ({ s with player := { s.player with
          credits := s.player.credits - total_cost
          ship := { s.player.ship with
            fuel := s.player.ship.fuel + quantity } } }, .refueled)

/-- The three upgradable ship components. -/
inductive UpgradeComponent where
  | cargoHold
  | fuelTank
  | engine
deriving DecidableEq, Repr

/-- Outcome of `visit_shipyard` / `_attempt_upgrade`. -/
inductive UpgradeOutcome where
  | maxLevel
  | notEnoughCredits
  | upgraded
  | exited
  | invalidChoice
deriving DecidableEq, Repr

/-- Function `_attempt_upgrade` for the cargo hold. -/
def attempt_upgrade_cargo (cfg : Config) (s : GameState) : GameState × UpgradeOutcome :=
  let lvl := s.player.ship.cargo_hold_level
  if lvl ≥ cfg.ship_upgrades_cargo_hold.length then (s, .maxLevel)
  else
    let cost := (cfg.ship_upgrades_cargo_hold.getD lvl.toNat (0, 0)).2
    if s.player.credits < cost then (s, .notEnoughCredits)
    else
      ({ s with player := { s.player with
          credits := s.player.credits - cost
          ship := { s.player.ship with cargo_hold_level := lvl + 1 } } }, .upgraded)

/-- Function `_attempt_upgrade` for the fuel tank. -/
def attempt_upgrade_fuel (cfg : Config) (s : GameState) : GameState × UpgradeOutcome :=
  let lvl := s.player.ship.fuel_tank_level
  if lvl ≥ cfg.ship_upgrades_fuel_tank.length then (s, .maxLevel)
  else
    let cost := (cfg.ship_upgrades_fuel_tank.getD lvl.toNat (0, 0)).2
    if s.player.credits < cost then (s, .notEnoughCredits)
    else
      ({ s with player := { s.player with
          credits := s.player.credits - cost
          ship := { s.player.ship with fuel_tank_level := lvl + 1 } } }, .upgraded)

/-- Function `_attempt_upgrade` for the engine. -/
def attempt_upgrade_engine (cfg : Config) (s : GameState) : GameState × UpgradeOutcome :=
  let lvl := s.player.ship.engine_level
  if lvl ≥ cfg.ship_upgrades_engine.length then (s, .maxLevel)
  else
    let cost := (cfg.ship_upgrades_engine.getD lvl.toNat (0, 0)).2
    if s.player.credits < cost then (s, .notEnoughCredits)
    else
      ({ s with player := { s.player with
          credits := s.player.credits - cost
          ship := { s.player.ship with engine_level := lvl + 1 } } }, .upgraded)

/-- Function `visit_shipyard`: despite its menu loop it performs at most
one upgrade attempt and then returns. -/
def visit_shipyard (cfg : Config) (s : GameState) (choice : ℤ) :
    GameState × UpgradeOutcome :=
  if choice = 1 then attempt_upgrade_cargo cfg s
  else if choice = 2 then attempt_upgrade_fuel cfg s
  else if choice = 3 then attempt_upgrade_engine cfg s
  else if choice = 4 then (s, .exited)
  else (s, .invalidChoice)

/-- The random draws consumed for one slot of mission-board generation:
template index, good index (into the goods matching the template), the
destination index (into the planets other than the current one), the
quantity drawn in the template's range, and the `uniform(0.9, 1.1)` reward
factor. -/
structure MissionDraw where
  tidx : ℕ
  gidx : ℕ
  didx : ℕ
  quantity : ℤ
  u : ℚ

/-- One slot of the board generation in `view_mission_board`: `none` when
the slot is silently skipped (no matching good or no other planet). -/
def generate_mission (cfg : Config) (s : GameState) (planet : Planet)
    (d : MissionDraw) : Option Mission :=
  let template := cfg.mission_templates.getD d.tidx noTemplate
  let possible_goods := cfg.goods.filter (fun g => template.good_types.contains g.type)
  if possible_goods.isEmpty then none
  else
    let good := possible_goods.getD d.gidx noGood
    let possible_destinations := s.planets.filter (fun p => p.name != planet.name)
    if possible_destinations.isEmpty then none
    else
      let dest := possible_destinations.getD d.didx noPlanet
      let reward := pyInt (((good.base_price * d.quantity : ℤ) : ℚ) *
        template.reward_multiplier * d.u)
      some { origin := planet.name, destination := dest.name, good := good,
             quantity := d.quantity, reward := reward, faction := dest.faction }

/-- Outcome of `view_mission_board`. -/
inductive BoardOutcome where
  | alreadyActive
  | noMissions
  | accepted
  | exited
  | invalidChoice
deriving DecidableEq, Repr

/-- Function `view_mission_board`: when the current planet's board is
empty, first generate (up to) three offers from the draw list; only then
check for an already-active mission (the board mutation happens either
way); otherwise accept the chosen mission, popping it off the board. -/
def view_mission_board (cfg : Config) (s : GameState) (draws : List MissionDraw)
    (choice : ℤ) : GameState × BoardOutcome :=
  let planet := currentPlanet s
  let board0 := planet.mission_board
  let board1 := if board0.isEmpty then draws.filterMap (generate_mission cfg s planet)
    else board0
  let s1 := { s with planets := updateBoard s.planets planet.name board1 }
  match s.player.current_mission with
  | some _ => (s1, .alreadyActive)
  | none =>
    if board1.isEmpty then (s1, .noMissions)
    else if 0 ≤ choice ∧ choice < board1.length then
      ({ s1 with
        player := { s1.player with
          current_mission := some (board1.getD choice.toNat noMission) }
        planets := updateBoard s1.planets planet.name (board1.eraseIdx choice.toNat) },
        .accepted)
    else if choice = board1.length then (s1, .exited)
    else (s1, .invalidChoice)

/-- A player command with all interactive inputs and random draws made
explicit.  `statusCmd`, `toggleCmd` and `invalidCmd` cover choices 8, 9 and
every unrecognized or malformed input of `game_loop`. -/
inductive Command where
  | travelCmd (choice : ℤ) (tr : TravelRand)
  | buyCmd (choice quantity : ℤ)
  | sellCmd (choice quantity : ℤ)
  | refuelCmd (quantity : ℤ)
  | shipyardCmd (choice : ℤ)
  | missionBoardCmd (draws : List MissionDraw) (choice : ℤ)
  | repayCmd (amount : ℤ)
  | statusCmd
  | toggleCmd
  | invalidCmd

/-- Dispatch of one command by `game_loop` (the `elif` chain on the
command number). -/
def dispatch (cfg : Config) (s : GameState) : Command → GameState
  | .travelCmd choice tr => (travel cfg s choice tr).1
  | .buyCmd choice q => (buy_goods cfg s choice q).1
  | .sellCmd choice q => (sell_goods cfg s choice q).1
  | .refuelCmd q => (refuel_ship cfg s q).1
  | .shipyardCmd choice => (visit_shipyard cfg s choice).1
  | .missionBoardCmd draws choice => (view_mission_board cfg s draws choice).1
  | .repayCmd amount => (repay_debt s amount).1
  | .statusCmd => s
  | .toggleCmd => toggle_display s
  | .invalidCmd => s

/-- All inputs of one iteration of `game_loop`: the event-trigger draw,
the answer to a possible loan offer, and the player's command. -/
structure TurnInput where
  trig : Option ℕ
  accept : Bool
  cmd : Command

/-- Result of one full iteration of `game_loop`. -/
inductive StepResult where
  | won
  | lostToDebt
  | lostToStranding
  | playing (s : GameState)
deriving DecidableEq, Repr

/-- One full iteration of `game_loop`: the pre-command phases, then — only
when still playing — the dispatch of exactly one command. -/
def gameStep (cfg : Config) (s : GameState) (inp : TurnInput) : StepResult :=
  match preCommand cfg s inp.trig inp.accept with
  | .won => .won
  | .lostToDebt => .lostToDebt
  | .lostToStranding => .lostToStranding
  | .playing s1 => .playing (dispatch cfg s1 inp.cmd)

/-- The ship built by `Ship.__init__`: all levels 1, empty cargo, tank
full. -/
def initial_ship (cfg : Config) : Ship :=
  { cargo_hold_level := 1, fuel_tank_level := 1, engine_level := 1, cargo := [],
    fuel := (cfg.ship_upgrades_fuel_tank.getD 0 (0, 0)).1 }

/-- Function `setup_game`: build the planets with empty markets and
boards, find the starting planet (failing when its name is unknown),
build the player, and generate the starting planet's market (`md` holds
that call's random draws). -/
def setup_game (cfg : Config) (md : MarketDraws) : Option GameState :=
  let planets0 := cfg.planet_inits.map (fun pc =>
    ({ name := pc.name, tech_level := pc.tech_level, faction := pc.faction,
       market := emptyMarket, mission_board := [] } : Planet))
  match planets0.find? (fun p => p.name == cfg.starting_planet) with
  | none => none
  | some sp =>
    some
      { player :=
          { name := "Captain", ship := initial_ship cfg, location := sp.name,
            credits := cfg.start_credits, display_mode := "normal",
            reputation := cfg.factions.map (fun f => (f, 0)),
            current_mission := none, debt := 0 }
        planets := updateMarket planets0 sp.name
          (generate_market_data cfg sp.tech_level [] md)
        active_events := [] }

/-- Side conditions tying a turn's random draws to the distributions the
interpreter samples them from: an event trigger outcome is only possible
when `random.random() < event_trigger_chance` can go that way (a draw in
`[0, 1)` exists below the chance only when it is positive, and above it
only when it is below 1), the travel risk draw is a `random.random()`
value in `[0, 1)`, `random.choice` indices are in range and
`random.randint` results lie in the requested interval. -/
def InputOK (cfg : Config) (inp : TurnInput) : Prop :=
  (∀ i, inp.trig = some i → i < cfg.events.length ∧
    0 < cfg.travel_options.event_trigger_chance) ∧
  (inp.trig = none → cfg.travel_options.event_trigger_chance < 1) ∧
  (match inp.cmd with
   | .travelCmd _ tr =>
      0 ≤ tr.riskDraw ∧ tr.riskDraw < 1 ∧
      tr.eventIdx < cfg.random_events.length ∧
      (cfg.random_events.getD tr.eventIdx noRandomEvent).amount_min ≤ tr.fuelLossAmt ∧
      tr.fuelLossAmt ≤ (cfg.random_events.getD tr.eventIdx noRandomEvent).amount_max
   | .missionBoardCmd draws _ =>
      ∀ d ∈ draws,
        d.tidx < cfg.mission_templates.length ∧
        (cfg.mission_templates.getD d.tidx noTemplate).min_quantity ≤ d.quantity ∧
        d.quantity ≤ (cfg.mission_templates.getD d.tidx noTemplate).max_quantity
   | _ => True)

/-- The game states reachable from `s0` by complete turns of the engine
that leave the game running. -/
inductive Reaches (cfg : Config) : GameState → GameState → Prop where
  | refl (s : GameState) : Reaches cfg s s
  | step {s s' s'' : GameState} {inp : TurnInput} :
      Reaches cfg s s' → InputOK cfg inp → gameStep cfg s' inp = .playing s'' →
      Reaches cfg s s''

/-- Well-formedness of the configuration, as the spec's external-interface
section describes it: nonnegative distances, fuel costs, efficiencies and
fuel-loss ranges, mission quantities at least 1, and upgrade tables that
are nonempty, nonnegative and nondecreasing level over level. -/
structure ConfigWF (cfg : Config) : Prop where
  dist_nonneg : ∀ a b, 0 ≤ cfg.distance a b
  base_fuel_cost_nonneg : 0 ≤ cfg.travel_options.base_fuel_cost_per_unit
  engine_eff_nonneg : ∀ e ∈ cfg.ship_upgrades_engine, 0 ≤ e.1
  loss_min_nonneg : ∀ e ∈ cfg.random_events, 0 ≤ e.amount_min
  template_qty_pos : ∀ t ∈ cfg.mission_templates, 1 ≤ t.min_quantity
  cargo_nonempty : cfg.ship_upgrades_cargo_hold ≠ []
  fuel_nonempty : cfg.ship_upgrades_fuel_tank ≠ []
  cargo_sizes_nonneg : ∀ e ∈ cfg.ship_upgrades_cargo_hold, 0 ≤ e.1
  cargo_sizes_mono : ∀ i j, i ≤ j → j < cfg.ship_upgrades_cargo_hold.length →
    (cfg.ship_upgrades_cargo_hold.getD i (0, 0)).1 ≤
      (cfg.ship_upgrades_cargo_hold.getD j (0, 0)).1
  fuel_caps_mono : ∀ i j, i ≤ j → j < cfg.ship_upgrades_fuel_tank.length →
    (cfg.ship_upgrades_fuel_tank.getD i (0, 0)).1 ≤
      (cfg.ship_upgrades_fuel_tank.getD j (0, 0)).1

/-- The purchasable list `buy_goods` builds: the goods of the current
market with positive stock, in market (insertion) order. -/
def tradableGoods (s : GameState) : List String :=
  ((marketOf s).prices.filter (fun p => lookupD (marketOf s).stock p.1 0 > 0)).map
    (fun p => p.1)

/-- The sellable list `sell_goods` builds: the cargo entries whose goods
this market prices, in cargo order. -/
def sellableGoods (s : GameState) : List String :=
  (s.player.ship.cargo.filter (fun p => containsKey (marketOf s).prices p.1)).map
    (fun p => p.1)

/-- A concrete ship for witness states: all levels 1, empty cargo, 10 fuel. -/
def wShip : Ship :=
  { cargo_hold_level := 1, fuel_tank_level := 1, engine_level := 1, cargo := [], fuel := 10 }

/-- A concrete player owing 500 with 1000 credits. -/
def debtState : GameState :=
  { player :=
      { name := "Captain", ship := wShip, location := "A", credits := 1000,
        display_mode := "normal", reputation := [("FacA", 0)],
        current_mission := none, debt := 500 }
    planets := [], active_events := [] }

/-- The same player with only 100 credits. -/
def poorDebtState : GameState :=
  { debtState with player := { debtState.player with credits := 100 } }

/-- A concrete tradable good for witness configurations. -/
def wOre : Good := { name := "Ore", type := "mineral", base_price := 10, base_stock := 100 }

/-- Concrete travel options for witness configurations. -/
def wTravelOptions : TravelOptions :=
  { base_fuel_cost_per_unit := 1, base_fuel_price := 2,
    event_trigger_chance := 0, random_event_chance := 1 }

/-- A concrete two-planet configuration used by witnesses and
counterexamples.  All modifiers are 1, distances are 5, the only random
event drains 5 to 20 fuel, and the upgrade tables are nondecreasing. -/
def wConfig : Config :=
  { goods := [wOre]
    tech_level_modifiers := fun _ _ => 1
    planet_inits := [⟨"A", 0, "FacA"⟩, ⟨"B", 0, "FacB"⟩]
    travel_options := wTravelOptions
    distance := fun _ _ => 5
    events := [⟨"Plague", "Bad news.", 3, [⟨"price_modifier", "mineral", 2⟩]⟩]
    random_events := [⟨"Meteor storm!", "fuel_loss", 5, 20⟩]
    mission_templates := [⟨["mineral"], 1, 10, 2⟩]
    ship_upgrades_cargo_hold := [(10, 0), (20, 50)]
    ship_upgrades_fuel_tank := [(10, 0), (30, 50)]
    ship_upgrades_engine := [(1, 0)]
    interest_rate := 1/10
    loan_amount := 500
    win_credits := 100000
    max_debt := 10000
    start_credits := 100
    starting_planet := "A"
    factions := ["FacA", "FacB"] }

/-- Market-generation draws that are all 1 (no noise). -/
def wDraws : MarketDraws := { priceU := fun _ => 1, stockU := fun _ => 1, fuelU := 1 }

/-- A concrete generated market on planet A of `wConfig`. -/
def wMarket : Market := { prices := [("Ore", 10)], stock := [("Ore", 100)], fuel_price := 2 }

/-- Concrete planet A. -/
def wPlanetA : Planet :=
  { name := "A", tech_level := 0, faction := "FacA", market := wMarket, mission_board := [] }

/-- Concrete planet B. -/
def wPlanetB : Planet :=
  { name := "B", tech_level := 0, faction := "FacB", market := emptyMarket, mission_board := [] }

/-- A concrete state at planet A with too little fuel (3) for any trip. -/
def lowFuelState : GameState :=
  { player :=
      { name := "Captain", ship := { wShip with fuel := 3 }, location := "A",
        credits := 100, display_mode := "normal",
        reputation := [("FacA", 0), ("FacB", 0)], current_mission := none, debt := 0 }
    planets := [wPlanetA, wPlanetB], active_events := [] }

/-- A concrete state at planet A with 100 credits and an empty hold,
ready to trade on `wMarket`. -/
def tradeState : GameState :=
  { player :=
      { name := "Captain", ship := wShip, location := "A", credits := 100,
        display_mode := "normal", reputation := [("FacA", 0), ("FacB", 0)],
        current_mission := none, debt := 0 }
    planets := [wPlanetA, wPlanetB], active_events := [] }

/-- A concrete stranded state: no fuel, no credits, empty hold, no debt. -/
def strandState : GameState :=
  { player :=
      { name := "Captain", ship := { wShip with fuel := 0 }, location := "A",
        credits := 0, display_mode := "normal",
        reputation := [("FacA", 0), ("FacB", 0)], current_mission := none, debt := 0 }
    planets := [wPlanetA, wPlanetB], active_events := [] }

/-- A concrete delivery mission: 5 Ore from A to B for 100 credits. -/
def wMission : Mission :=
  { origin := "A", destination := "B", good := wOre, quantity := 5, reward := 100,
    faction := "FacB" }

/-- A concrete state at planet B carrying 7 Ore with `wMission` active. -/
def missionState : GameState :=
  { player :=
      { name := "Captain", ship := { wShip with cargo := [("Ore", 7)] }, location := "B",
        credits := 50, display_mode := "normal",
        reputation := [("FacA", 0), ("FacB", 0)], current_mission := some wMission,
        debt := 0 }
    planets := [wPlanetA, wPlanetB], active_events := [] }

/-- The product of the multipliers of every `price_modifier` effect of
every active event whose `good_type` matches, written in the spec's
"compose multiplicatively" style (to be compared with the fold the code
performs in `priceModifierFor`). -/
def eventPriceFactor (gt : String) (active : List Event) : ℚ :=
  active.foldl
    (fun acc ev =>
      acc * ev.effects.foldl
        (fun b e =>
          if e.type == "price_modifier" && e.good_type == gt then b * e.multiplier
          else b)
        1)
    1

/-- Market draws whose price factor is 1.09, inside the legal
`uniform(0.9, 1.1)` band. -/
def c1Draws : MarketDraws :=
  { priceU := fun _ => 109/100, stockU := fun _ => 1, fuelU := 1 }

/-- The inductive invariant carried through the turn loop: the claimed
cargo and fuel bounds, plus what makes them self-propagating — the two
capacity-bearing upgrade levels stay within their tables, and every
mission on a board or in hand asks for a positive quantity. -/
structure TurnInv (cfg : Config) (s : GameState) : Prop where
  cargo_le : get_cargo_count s.player.ship.cargo ≤ cargo_hold_size cfg s.player.ship
  fuel_le : s.player.ship.fuel ≤ fuel_capacity cfg s.player.ship
  chl_lb : 1 ≤ s.player.ship.cargo_hold_level
  chl_ub : s.player.ship.cargo_hold_level ≤ (cfg.ship_upgrades_cargo_hold.length : ℤ)
  ftl_lb : 1 ≤ s.player.ship.fuel_tank_level
  ftl_ub : s.player.ship.fuel_tank_level ≤ (cfg.ship_upgrades_fuel_tank.length : ℤ)
  board_q : ∀ p ∈ s.planets, ∀ m ∈ p.mission_board, 1 ≤ m.quantity
  cur_q : ∀ m, s.player.current_mission = some m → 1 ≤ m.quantity

/-- The travel inputs of the fuel-loss counterexample: the meteor-storm
risk event fires and drains 15 fuel. -/
def c5TR : TravelRand :=
  { md := wDraws, riskDraw := 0, eventIdx := 0, fuelLossAmt := 15 }

/-- The full turn input of the fuel-loss counterexample: no event trigger,
travel to the only other planet. -/
def c5Input : TurnInput :=
  { trig := none, accept := false, cmd := Command.travelCmd 0 c5TR }

/-- The state the counterexample turn reaches: at planet B with the trip's
5 fuel paid and 15 more lost to the meteor storm — fuel is −10. -/
def c5Bad : GameState :=
  { player :=
      { name := "Captain", ship := { wShip with fuel := -10 }, location := "B",
        credits := 100, display_mode := "normal",
        reputation := [("FacA", 0), ("FacB", 0)], current_mission := none, debt := 0 }
    planets := [wPlanetA, { wPlanetB with market := wMarket }], active_events := [] }

/-- On a nonnegative argument, Python truncation is the floor. -/
lemma pyInt_of_nonneg (q : ℚ) (h : 0 ≤ q) : pyInt q = ⌊q⌋ := by
  rw [pyInt, if_neg (not_lt.mpr h)]

/-- On a negative argument, Python truncation is the ceiling. -/
lemma pyInt_of_neg (q : ℚ) (h : q < 0) : pyInt q = -⌊-q⌋ := if_pos h

/-- Truncation of a nonnegative number is nonnegative. -/
lemma pyInt_nonneg (q : ℚ) (h : 0 ≤ q) : 0 ≤ pyInt q := by
  rw [pyInt_of_nonneg q h]
  exact Int.floor_nonneg.mpr h

/-- Truncation is the identity on integers. -/
@[simp] lemma pyInt_intCast (n : ℤ) : pyInt (n : ℚ) = n := by
  rcases lt_or_le (n : ℚ) 0 with h | h
  · rw [pyInt_of_neg _ h, ← Int.cast_neg, Int.floor_intCast, neg_neg]
  · rw [pyInt_of_nonneg _ h, Int.floor_intCast]

example : pyInt (109/10 : ℚ) = 10 := by
  rw [pyInt_of_nonneg _ (by norm_num)]; norm_num
example : pyInt (-109/10 : ℚ) = -10 := by
  rw [pyInt_of_neg _ (by norm_num)]; norm_num
example : lookupD [("a", 3), ("b", 4)] "b" 0 = 4 := by decide
example : setKey [("a", 3)] "b" 7 = [("a", 3), ("b", 7)] := by decide
example : remove_cargo [("a", 3), ("b", 4)] "a" 3 = [("b", 4)] := by decide

/-- Unfolding lemma: lookup on a cons cell. -/
lemma lookupD_cons (a : String × ℤ) (t : List (String × ℤ)) (k : String) (d : ℤ) :
    lookupD (a :: t) k d = if a.1 == k then a.2 else lookupD t k d := by
  rw [lookupD, lookupD, List.find?_cons]
  cases a.1 == k <;> simp

/-- Unfolding lemma: key membership on a cons cell. -/
lemma containsKey_cons (a : String × ℤ) (t : List (String × ℤ)) (k : String) :
    containsKey (a :: t) k = (a.1 == k || containsKey t k) := by
  rw [containsKey, containsKey, List.find?_cons]
  cases a.1 == k <;> simp

/-- A key is contained in a dictionary iff it is among its keys. -/
lemma containsKey_iff_mem {m : List (String × ℤ)} {k : String} :
    containsKey m k = true ↔ k ∈ m.map Prod.fst := by
  induction m with
  | nil => simp [containsKey]
  | cons a t ih =>
    rw [containsKey_cons]
    cases h : a.1 == k with
    | true => simp [eq_of_beq h]
    | false =>
      have hne : ¬k = a.1 := fun he => by simp [he] at h
      simp [ih, hne]

/-- An absent key looks up to the default. -/
lemma lookupD_of_not_contains {m : List (String × ℤ)} {k : String} (d : ℤ)
    (hc : containsKey m k = false) : lookupD m k d = d := by
  induction m with
  | nil => rfl
  | cons a t ih =>
    rw [containsKey_cons] at hc
    cases h : a.1 == k <;> simp [h] at hc ⊢ <;> simp [lookupD_cons, h, ih hc]

/-- Looking up a just-set key yields the value just set. -/
lemma lookupD_setKey_self (m : List (String × ℤ)) (k : String) (v d : ℤ) :
    lookupD (setKey m k v) k d = v := by
  induction m with
  | nil => simp [setKey, lookupD_cons]
  | cons a t ih => cases h : a.1 == k <;> simp [setKey, h, lookupD_cons, ih]

/-- Setting one key leaves the lookup of any other key unchanged. -/
lemma lookupD_setKey_ne (m : List (String × ℤ)) {k k' : String} (v d : ℤ)
    (h : k' ≠ k) : lookupD (setKey m k v) k' d = lookupD m k' d := by
  induction m with
  | nil => simp [setKey, lookupD_cons, beq_iff_eq, (Ne.symm h : ¬k = k')]
  | cons a t ih =>
    cases hk : a.1 == k with
    | true =>
      have ha : (a.1 == k') = false :=
        beq_eq_false_iff_ne.mpr (by rw [eq_of_beq hk]; exact Ne.symm h)
      simp [setKey, hk, lookupD_cons, ha]
    | false => simp [setKey, hk, lookupD_cons, ih]

/-- Deleting a key leaves the lookup of any other key unchanged. -/
lemma lookupD_delKey_ne (m : List (String × ℤ)) {k k' : String} (d : ℤ)
    (h : k' ≠ k) : lookupD (delKey m k) k' d = lookupD m k' d := by
  induction m with
  | nil => rfl
  | cons a t ih =>
    cases hk : a.1 == k with
    | true =>
      have ha : (a.1 == k') = false :=
        beq_eq_false_iff_ne.mpr (by rw [eq_of_beq hk]; exact Ne.symm h)
      simp [delKey, hk, lookupD_cons, ha]
    | false => simp [delKey, hk, lookupD_cons, ih]

/-- Deleting a key makes its lookup yield the default (keys are unique). -/
lemma lookupD_delKey_self {m : List (String × ℤ)} {k : String} (d : ℤ)
    (hnd : (m.map Prod.fst).Nodup) : lookupD (delKey m k) k d = d := by
  induction m with
  | nil => rfl
  | cons a t ih =>
    simp only [List.map_cons, List.nodup_cons] at hnd
    cases hk : a.1 == k with
    | true =>
      have : containsKey t k = false := by
        rw [← Bool.not_eq_true]
        rw [containsKey_iff_mem]
        rw [beq_iff_eq] at hk
        exact hk ▸ hnd.1
      simp [delKey, hk, lookupD_of_not_contains d this]
    | false => simp [delKey, hk, lookupD_cons, ih hnd.2]

/-- The keys after `setKey`: unchanged when present, appended otherwise. -/
lemma keys_setKey (m : List (String × ℤ)) (k : String) (v : ℤ) :
    (setKey m k v).map Prod.fst =
      if containsKey m k then m.map Prod.fst else m.map Prod.fst ++ [k] := by
  induction m with
  | nil => simp [setKey, containsKey]
  | cons a t ih =>
    cases h : a.1 == k with
    | true => simp [setKey, h, containsKey_cons]
    | false =>
      rw [containsKey_cons, h]
      by_cases hc : containsKey t k = true <;> simp [setKey, h, hc, ih]

/-- `setKey` preserves uniqueness of the keys. -/
lemma keys_nodup_setKey {m : List (String × ℤ)} {k : String} (v : ℤ)
    (hnd : (m.map Prod.fst).Nodup) : ((setKey m k v).map Prod.fst).Nodup := by
  rw [keys_setKey]
  split
  · exact hnd
  · next hc =>
    have : k ∉ m.map Prod.fst := by
      rw [← containsKey_iff_mem]; simp_all
    simp [List.nodup_append, hnd, this]

/-- `delKey` yields a sublist. -/
lemma delKey_sublist (m : List (String × ℤ)) (k : String) :
    List.Sublist (delKey m k) m := by
  induction m with
  | nil => exact List.Sublist.refl _
  | cons a t ih =>
    cases h : a.1 == k with
    | true => simpa [delKey, h] using List.sublist_cons_self a t
    | false => simpa [delKey, h] using List.Sublist.cons₂ a ih

/-- `delKey` preserves uniqueness of the keys. -/
lemma keys_nodup_delKey {m : List (String × ℤ)} (k : String)
    (hnd : (m.map Prod.fst).Nodup) : ((delKey m k).map Prod.fst).Nodup :=
  hnd.sublist ((delKey_sublist m k).map Prod.fst)

/-- Unfolding lemma: cargo count of a cons cell. -/
lemma get_cargo_count_cons (a : String × ℤ) (t : List (String × ℤ)) :
    get_cargo_count (a :: t) = a.2 + get_cargo_count t := by
  simp [get_cargo_count]

/-- Cargo count after updating a present key. -/
lemma count_setKey_of_contains {m : List (String × ℤ)} {k : String} (v : ℤ)
    (hc : containsKey m k = true) :
    get_cargo_count (setKey m k v) = get_cargo_count m - lookupD m k 0 + v := by
  induction m with
  | nil => simp [containsKey] at hc
  | cons a t ih =>
    rw [containsKey_cons] at hc
    cases h : a.1 == k with
    | true => simp [setKey, h, get_cargo_count_cons, lookupD_cons]; ring
    | false =>
      rw [h] at hc; simp only [Bool.false_or] at hc
      simp [setKey, h, get_cargo_count_cons, lookupD_cons, ih hc]; ring

/-- Cargo count after inserting an absent key. -/
lemma count_setKey_of_not_contains {m : List (String × ℤ)} {k : String} (v : ℤ)
    (hc : containsKey m k = false) :
    get_cargo_count (setKey m k v) = get_cargo_count m + v := by
  induction m with
  | nil => simp [setKey, get_cargo_count]
  | cons a t ih =>
    rw [containsKey_cons] at hc
    cases h : a.1 == k with
    | true => rw [h] at hc; simp at hc
    | false =>
      rw [h] at hc; simp only [Bool.false_or] at hc
      simp [setKey, h, get_cargo_count_cons, ih hc]; ring

/-- Cargo count after deleting a present key. -/
lemma count_delKey_of_contains {m : List (String × ℤ)} {k : String}
    (hc : containsKey m k = true) :
    get_cargo_count (delKey m k) = get_cargo_count m - lookupD m k 0 := by
  induction m with
  | nil => simp [containsKey] at hc
  | cons a t ih =>
    rw [containsKey_cons] at hc
    cases h : a.1 == k with
    | true => simp [delKey, h, get_cargo_count_cons, lookupD_cons]
    | false =>
      rw [h] at hc; simp only [Bool.false_or] at hc
      simp [delKey, h, get_cargo_count_cons, lookupD_cons, ih hc]; ring

/-- C3: debt repayment leaves credits and debt unchanged (and does not
report a repayment) when the requested amount is non-positive; for a
positive amount, the amount clamped down to the current debt is paid in
full — decreasing credits and debt each by exactly the clamped amount —
when it does not exceed the credits, and otherwise nothing changes and,
when there was debt, the failure is an insufficient-credits failure. -/
theorem repay_debt_spec (s : GameState) (amount : ℤ) :
    (amount ≤ 0 → (repay_debt s amount).1 = s ∧ (repay_debt s amount).2 ≠ .repaid) ∧
    (0 < amount →
      (s.player.credits < min amount s.player.debt → (repay_debt s amount).1 = s) ∧
      (min amount s.player.debt ≤ s.player.credits →
        (repay_debt s amount).1.player.credits
          = s.player.credits - min amount s.player.debt ∧
        (repay_debt s amount).1.player.debt
          = s.player.debt - min amount s.player.debt) ∧
      (0 < s.player.debt → s.player.credits < min amount s.player.debt →
        (repay_debt s amount).2 = .insufficientCredits)) := by
  by_cases hd : s.player.debt = 0 <;> by_cases ha : amount ≤ 0
  · refine ⟨fun _ => ⟨?_, ?_⟩, fun h0 => absurd h0 (by omega)⟩ <;> simp [repay_debt, hd]
  · refine ⟨fun h0 => absurd h0 ha, fun h0 => ⟨?_, ?_, ?_⟩⟩
    · intro _; simp [repay_debt, hd]
    · intro _
      simp only [repay_debt, hd, if_true]
      constructor <;> omega
    · intro hdp _; exact absurd hdp (by omega)
  · refine ⟨fun _ => ?_, fun h0 => absurd h0 (by omega)⟩
    constructor <;> simp [repay_debt, hd, ha]
  · have ha' : 0 < amount := by omega
    refine ⟨fun h0 => absurd h0 ha, fun _ => ?_⟩
    by_cases hgt : amount > s.player.debt
    · by_cases hcred : s.player.debt > s.player.credits
      · refine ⟨fun _ => ?_, fun hle => absurd hle (by omega), fun _ _ => ?_⟩ <;>
          simp [repay_debt, hd, ha, hgt, hcred]
      · refine ⟨fun hlt => absurd hlt (by omega), fun _ => ?_,
          fun _ hlt => absurd hlt (by omega)⟩
        simp only [repay_debt, hd, ha, hgt, hcred, if_true, if_false, ite_true,
          ite_false]
        constructor <;> simp <;> omega
    · by_cases hcred : amount > s.player.credits
      · refine ⟨fun _ => ?_, fun hle => absurd hle (by omega), fun _ _ => ?_⟩ <;>
          simp [repay_debt, hd, ha, hgt, hcred]
      · refine ⟨fun hlt => absurd hlt (by omega), fun _ => ?_,
          fun _ hlt => absurd hlt (by omega)⟩
        simp only [repay_debt, hd, ha, hgt, hcred, if_true, if_false, ite_true,
          ite_false]
        constructor <;> simp <;> omega

/-- Witness for C3, instantiating both spec examples: repaying 700 against
a debt of 500 with 1000 credits clamps to 500 (leaving 500 credits and no
debt), and repaying 300 against a debt of 500 with only 100 credits fails
with an insufficient-credits outcome and no state change. -/
theorem repay_debt_spec_witness :
    ((repay_debt debtState 700).1.player.credits = 500 ∧
      (repay_debt debtState 700).1.player.debt = 0) ∧
    ((repay_debt poorDebtState 300).1 = poorDebtState ∧
      (repay_debt poorDebtState 300).2 = RepayOutcome.insufficientCredits) := by
  constructor
  · have h := ((repay_debt_spec debtState 700).2 (by norm_num)).2.1 (by decide)
    exact ⟨by rw [h.1]; decide, by rw [h.2]; decide⟩
  · exact ⟨((repay_debt_spec poorDebtState 300).2 (by norm_num)).1 (by decide),
      ((repay_debt_spec poorDebtState 300).2 (by norm_num)).2.2 (by decide) (by decide)⟩

/-- C6: the per-turn check phase transitions to the terminal `Won` result
exactly when the player's credits have reached the configured winning
amount and the debt is zero. -/
theorem checkPhase_won_iff (cfg : Config) (s : GameState) (accept : Bool) :
    checkPhase cfg s accept = .won ↔
      (s.player.credits ≥ cfg.win_credits ∧ s.player.debt = 0) := by
  unfold checkPhase
  split
  case isTrue h => simp [h]
  case isFalse h =>
    split
    · simp [h]
    · split
      · split <;> simp [h]
      · simp [h]

/-- C7: when the ship's fuel is below the fuel cost of the chosen route,
`travel` reports insufficient fuel and returns the state completely
unchanged — fuel, location, markets and every other field. -/
theorem travel_insufficient_fuel (cfg : Config) (s : GameState) (choice : ℤ)
    (tr : TravelRand) (hlo : 0 ≤ choice)
    (hhi : choice < (s.planets.filter (fun p => p.name != s.player.location)).length)
    (hfuel : s.player.ship.fuel < pyInt (cfg.distance s.player.location
      ((s.planets.filter (fun p => p.name != s.player.location)).getD choice.toNat
        noPlanet).name *
      cfg.travel_options.base_fuel_cost_per_unit * engine_efficiency cfg s.player.ship)) :
    (travel cfg s choice tr).1 = s ∧ (travel cfg s choice tr).2 = .insufficientFuel := by
  have h1 : ¬(choice =
      ((s.planets.filter (fun p => p.name != s.player.location)).length : ℤ)) := by
    omega
  simp only [travel, h1, hlo, hhi, and_self, if_false, if_true, ite_false, ite_true,
    not_le.mpr hfuel, ge_iff_le, iff_false, and_true, true_and]

/-- Witness for C7: at planet A of the two-planet witness configuration the
trip to B costs 5 fuel; with 3 fuel aboard, travel fails and the state is
untouched. -/
theorem travel_insufficient_fuel_witness :
    (travel wConfig lowFuelState 0 ⟨wDraws, 0, 0, 0⟩).1 = lowFuelState ∧
    (travel wConfig lowFuelState 0 ⟨wDraws, 0, 0, 0⟩).2 =
      TravelOutcome.insufficientFuel := by
  refine travel_insufficient_fuel wConfig lowFuelState 0 _ (by decide) (by decide) ?_
  have hd : (lowFuelState.planets.filter
      (fun p => p.name != lowFuelState.player.location)).getD (Int.toNat 0) noPlanet
      = wPlanetB := by decide
  rw [hd]
  have hq : wConfig.distance lowFuelState.player.location wPlanetB.name *
      wConfig.travel_options.base_fuel_cost_per_unit *
      engine_efficiency wConfig lowFuelState.player.ship = ((5 : ℤ) : ℚ) := by
    norm_num [wConfig, wTravelOptions, engine_efficiency, lowFuelState, wShip]
  rw [hq, pyInt_intCast]
  decide

/-- C8: one call of the event engine's advance step keeps active-event
names unique: given a duplicate-free active list, the result is
duplicate-free, and a drawn template whose name is still active is
discarded outright — the call returns exactly what it would have returned
with no trigger at all (no retry). -/
theorem handle_events_names_nodup (cfg : Config) (active : List Event) (trig : Option ℕ)
    (hnd : (active.map Event.name).Nodup) :
    ((handle_events_list cfg active trig).map Event.name).Nodup ∧
    (∀ i, trig = some i →
      (cfg.events.getD i noEvent).name ∈
        (handle_events_list cfg active none).map Event.name →
      handle_events_list cfg active trig = handle_events_list cfg active none) := by
  set kept := (active.map fun e => { e with duration := e.duration - 1 }).filter
    (fun e => decide (e.duration > 0)) with hkdef
  have hkeq : handle_events_list cfg active none = kept := rfl
  have hkept : (kept.map Event.name).Nodup := by
    have h1 := (List.filter_sublist (l := active.map
      (fun e => { e with duration := e.duration - 1 }))
      (p := fun e => decide (e.duration > 0))).map Event.name
    have h2 : (active.map fun e => { e with duration := e.duration - 1 }).map Event.name
        = active.map Event.name := by
      rw [List.map_map]; rfl
    rw [h2] at h1
    rw [← hkdef] at h1
    exact hnd.sublist h1
  have hany : ∀ nm : String,
      (kept.any (fun e => e.name == nm) = true) ↔ nm ∈ kept.map Event.name := by
    intro nm
    rw [List.any_eq_true]
    constructor
    · rintro ⟨e, he, hb⟩
      exact List.mem_map.mpr ⟨e, he, eq_of_beq hb⟩
    · intro hm
      obtain ⟨e, he, hename⟩ := List.mem_map.mp hm
      exact ⟨e, he, beq_iff_eq.mpr hename⟩
  cases trig with
  | none => exact ⟨by rw [hkeq]; exact hkept, fun i hi => by cases hi⟩
  | some i =>
    have hsome : handle_events_list cfg active (some i) =
        if kept.any (fun e => e.name == (cfg.events.getD i noEvent).name) then kept
        else kept ++ [cfg.events.getD i noEvent] := by
      rw [hkdef]; rfl
    rw [hsome, hkeq]
    by_cases hdup : kept.any (fun e => e.name == (cfg.events.getD i noEvent).name) = true
    · rw [if_pos hdup]
      exact ⟨hkept, fun j hj hm => rfl⟩
    · rw [if_neg hdup]
      constructor
      · rw [List.map_append]
        refine hkept.append (by simp) ?_
        intro x hx hxs
        rw [List.map_singleton, List.mem_singleton] at hxs
        exact hdup ((hany _).mpr (hxs ▸ hx))
      · intro j hj hm
        cases hj
        exact absurd ((hany _).mpr hm) hdup

/-- Witness for C8: with the Plague event active for 3 more turns and the
trigger drawing the Plague template again, the duplicate is discarded and
the advance step returns the same active list as an untriggered turn. -/
theorem handle_events_names_nodup_witness :
    ((handle_events_list wConfig [⟨"Plague", "Bad news.", 3,
        [⟨"price_modifier", "mineral", 2⟩]⟩] (some 0)).map Event.name).Nodup ∧
    handle_events_list wConfig [⟨"Plague", "Bad news.", 3,
        [⟨"price_modifier", "mineral", 2⟩]⟩] (some 0) =
      handle_events_list wConfig [⟨"Plague", "Bad news.", 3,
        [⟨"price_modifier", "mineral", 2⟩]⟩] none := by
  have h := handle_events_names_nodup wConfig
    [⟨"Plague", "Bad news.", 3, [⟨"price_modifier", "mineral", 2⟩]⟩] (some 0)
    (by decide)
  exact ⟨h.1, h.2 0 rfl (by decide)⟩

/-- A key whose lookup is nonzero under default 0 is present. -/
lemma containsKey_of_lookupD_ne {m : List (String × ℤ)} {k : String}
    (h : lookupD m k 0 ≠ 0) : containsKey m k = true := by
  by_contra hc
  exact h (lookupD_of_not_contains 0 (Bool.not_eq_true _ ▸ hc))

/-- A just-set key is present. -/
lemma containsKey_setKey_self (m : List (String × ℤ)) (k : String) (v : ℤ) :
    containsKey (setKey m k v) k = true := by
  rw [containsKey_iff_mem, keys_setKey]
  split
  · next h => exact containsKey_iff_mem.mp h
  · simp

/-- Removing `q` units decreases the total cargo count by exactly `q`
(when the good is present in at least that quantity). -/
lemma count_remove_cargo {c : List (String × ℤ)} {g : String} {q : ℤ}
    (hc : containsKey c g = true) (hq : lookupD c g 0 ≥ q) :
    get_cargo_count (remove_cargo c g q) = get_cargo_count c - q := by
  rw [remove_cargo, if_pos ⟨hc, hq⟩]
  by_cases hz : lookupD (setKey c g (lookupD c g 0 - q)) g 0 = 0
  · rw [if_pos hz, count_delKey_of_contains (containsKey_setKey_self c g _), hz,
      count_setKey_of_contains _ hc]
    ring
  · rw [if_neg hz, count_setKey_of_contains _ hc]
    ring

/-- Removing `q` units decreases the removed good's entry by exactly `q`
(an entry reaching zero is deleted, which the default-0 lookup also
reports as zero). -/
lemma lookupD_remove_cargo_self {c : List (String × ℤ)} {g : String} {q : ℤ}
    (hc : containsKey c g = true) (hq : lookupD c g 0 ≥ q)
    (hnd : (c.map Prod.fst).Nodup) :
    lookupD (remove_cargo c g q) g 0 = lookupD c g 0 - q := by
  rw [remove_cargo, if_pos ⟨hc, hq⟩]
  by_cases hz : lookupD (setKey c g (lookupD c g 0 - q)) g 0 = 0
  · rw [lookupD_setKey_self] at hz
    rw [if_pos (by rw [lookupD_setKey_self]; exact hz),
      lookupD_delKey_self 0 (keys_nodup_setKey _ hnd)]
    omega
  · rw [if_neg hz, lookupD_setKey_self]

/-- Removing units of one good leaves every other good's entry unchanged. -/
lemma lookupD_remove_cargo_ne {c : List (String × ℤ)} {g g' : String} (q : ℤ)
    (h : g' ≠ g) : lookupD (remove_cargo c g q) g' 0 = lookupD c g' 0 := by
  rw [remove_cargo]
  by_cases hcond : containsKey c g = true ∧ lookupD c g 0 ≥ q
  · rw [if_pos hcond]
    by_cases hz : lookupD (setKey c g (lookupD c g 0 - q)) g 0 = 0
    · rw [if_pos hz, lookupD_delKey_ne _ _ h, lookupD_setKey_ne _ _ _ h]
    · rw [if_neg hz, lookupD_setKey_ne _ _ _ h]
  · rw [if_neg hcond]

/-- Incrementing a faction's reputation raises its looked-up score by one. -/
lemma lookupD_bump_self {r : List (String × ℤ)} {f : String}
    (hc : containsKey r f = true) :
    lookupD (r.map fun p => if p.1 == f then (p.1, p.2 + 1) else p) f 0
      = lookupD r f 0 + 1 := by
  induction r with
  | nil => simp [containsKey] at hc
  | cons a t ih =>
    rw [containsKey_cons] at hc
    cases h : a.1 == f with
    | true => simp [h, lookupD_cons, eq_of_beq h]
    | false =>
      rw [h] at hc
      simp only [Bool.false_or] at hc
      simpa [List.map_cons, lookupD_cons, h, beq_eq_false_iff_ne.mp h] using ih hc

/-- C2: at the start of a turn with an active mission, if the player is at
the mission's destination and the cargo holds at least the required
quantity of the mission's good, then exactly that quantity is removed
(both from the good's entry and from the cargo total), the reward is
credited in full, reputation with the mission's faction rises by exactly
one, and the mission is cleared; if the cargo holds less, the whole state
is unchanged and the mission stays active. -/
theorem mission_completion_spec (s : GameState) (m : Mission)
    (hm : s.player.current_mission = some m)
    (hloc : s.player.location = m.destination)
    (hqpos : 0 < m.quantity)
    (hrep : containsKey s.player.reputation m.faction = true)
    (hnd : (s.player.ship.cargo.map Prod.fst).Nodup) :
    (m.quantity ≤ lookupD s.player.ship.cargo m.good.name 0 →
      (missionPhase s).player.credits = s.player.credits + m.reward ∧
      lookupD (missionPhase s).player.reputation m.faction 0
        = lookupD s.player.reputation m.faction 0 + 1 ∧
      get_cargo_count (missionPhase s).player.ship.cargo
        = get_cargo_count s.player.ship.cargo - m.quantity ∧
      lookupD (missionPhase s).player.ship.cargo m.good.name 0
        = lookupD s.player.ship.cargo m.good.name 0 - m.quantity ∧
      (missionPhase s).player.current_mission = none) ∧
    (lookupD s.player.ship.cargo m.good.name 0 < m.quantity →
      missionPhase s = s) := by
  constructor
  · intro hq
    have hcg : containsKey s.player.ship.cargo m.good.name = true :=
      containsKey_of_lookupD_ne (by omega)
    have hred : missionPhase s = complete_mission s := by
      rw [missionPhase, hm]
      show (if s.player.location = m.destination ∧
          lookupD s.player.ship.cargo m.good.name 0 ≥ m.quantity then
        complete_mission s else s) = complete_mission s
      exact if_pos ⟨hloc, hq⟩
    have hcomp : complete_mission s = { s with player := { s.player with
        credits := s.player.credits + m.reward
        reputation := s.player.reputation.map
          (fun p => if p.1 == m.faction then (p.1, p.2 + 1) else p)
        ship := { s.player.ship with
          cargo := remove_cargo s.player.ship.cargo m.good.name m.quantity }
        current_mission := none } } := by
      rw [complete_mission, hm]
    rw [hred, hcomp]
    refine ⟨rfl, lookupD_bump_self hrep, count_remove_cargo hcg hq,
      lookupD_remove_cargo_self hcg hq hnd, rfl⟩
  · intro hlt
    rw [missionPhase, hm]
    show (if s.player.location = m.destination ∧
        lookupD s.player.ship.cargo m.good.name 0 ≥ m.quantity then
      complete_mission s else s) = s
    exact if_neg (fun hand => absurd hand.2 (by omega))

/-- Witness for C2: delivering 5 of 7 carried Ore at destination B pays
the 100-credit reward, bumps FacB reputation to 1, leaves 2 cargo units,
and clears the mission. -/
theorem mission_completion_spec_witness :
    (missionPhase missionState).player.credits = 150 ∧
    lookupD (missionPhase missionState).player.reputation "FacB" 0 = 1 ∧
    get_cargo_count (missionPhase missionState).player.ship.cargo = 2 ∧
    (missionPhase missionState).player.current_mission = none := by
  have h := (mission_completion_spec missionState wMission (by decide) (by decide)
    (by decide) (by decide) (by decide)).1 (by decide)
  exact ⟨by decide, by decide, by decide, h.2.2.2.2⟩

/-- With the player's location present among the planets, `currentPlanet`
is a member of the planet list and carries the player's location name. -/
lemma currentPlanet_spec {s : GameState}
    (hloc : ∃ q ∈ s.planets, q.name = s.player.location) :
    currentPlanet s ∈ s.planets ∧ (currentPlanet s).name = s.player.location := by
  obtain ⟨q, hq, hname⟩ := hloc
  rw [currentPlanet]
  cases hfind : s.planets.find? (fun p => p.name == s.player.location) with
  | none =>
    have := List.find?_eq_none.mp hfind q hq
    exact absurd (beq_iff_eq.mpr hname) this
  | some P =>
    have h1 := @List.find?_some Planet (fun p => p.name == s.player.location) P
      s.planets hfind
    exact ⟨List.mem_of_find?_eq_some hfind, eq_of_beq h1⟩

/-- C10: with a mission already active, the mission-board operation leaves
the player — in particular `current_mission` — untouched, answers with the
already-active-mission message, and removes no mission from any planet's
board (it may only repopulate an empty board). -/
theorem mission_board_keeps_active (cfg : Config) (s : GameState)
    (draws : List MissionDraw) (choice : ℤ) (m : Mission)
    (hm : s.player.current_mission = some m)
    (hnd : (s.planets.map Planet.name).Nodup)
    (hloc : ∃ q ∈ s.planets, q.name = s.player.location) :
    (view_mission_board cfg s draws choice).1.player = s.player ∧
    (view_mission_board cfg s draws choice).2 = BoardOutcome.alreadyActive ∧
    ∀ p ∈ s.planets, ∀ x ∈ p.mission_board,
      ∃ p' ∈ (view_mission_board cfg s draws choice).1.planets,
        p'.name = p.name ∧ x ∈ p'.mission_board := by
  have hred : view_mission_board cfg s draws choice =
      ({ s with planets := (updateBoard s.planets (currentPlanet s).name
        (if (currentPlanet s).mission_board.isEmpty then
          draws.filterMap (generate_mission cfg s (currentPlanet s))
        else (currentPlanet s).mission_board)) }, .alreadyActive) := by
    rw [view_mission_board, hm]
  rw [hred]
  refine ⟨rfl, rfl, ?_⟩
  intro p hp x hx
  refine ⟨if p.name == (currentPlanet s).name then
    { p with mission_board := (if (currentPlanet s).mission_board.isEmpty then
        draws.filterMap (generate_mission cfg s (currentPlanet s))
      else (currentPlanet s).mission_board) } else p,
    List.mem_map_of_mem _ hp, ?_, ?_⟩
  · by_cases h : (p.name == (currentPlanet s).name) = true <;> simp [h]
  · by_cases h : (p.name == (currentPlanet s).name) = true
    · rw [if_pos h]
      have hPmem : currentPlanet s ∈ s.planets := (currentPlanet_spec hloc).1
      have hpP : p = currentPlanet s :=
        List.inj_on_of_nodup_map hnd hp hPmem (eq_of_beq h)
      have hne : (currentPlanet s).mission_board.isEmpty = false := by
        cases hb : (currentPlanet s).mission_board with
        | nil =>
          rw [← hpP] at hb
          rw [hb] at hx
          cases hx
        | cons a t => rfl
      rw [if_neg (by simp [hne] : ¬((currentPlanet s).mission_board.isEmpty = true))]
      rw [← hpP]
      exact hx
    · rw [if_neg h]
      exact hx


/-- Witness for C10: at planet B with `wMission` active, the board visit
answers already-active and the player (and mission) are untouched. -/
theorem mission_board_keeps_active_witness :
    (view_mission_board wConfig missionState [] 0).1.player = missionState.player ∧
    (view_mission_board wConfig missionState [] 0).2 = BoardOutcome.alreadyActive := by
  have h := mission_board_keeps_active wConfig missionState [] 0 wMission (by decide)
    (by decide) ⟨wPlanetB, by decide, by decide⟩
  exact ⟨h.1, h.2.1⟩

/-- Looking up a good's name in a market table built by mapping over a
duplicate-free goods catalog yields that good's computed entry. -/
lemma lookupD_map_goods {goods : List Good} {g : Good} (f : Good → ℤ)
    (hg : g ∈ goods) (hnd : (goods.map Good.name).Nodup) :
    lookupD (goods.map (fun x => (x.name, f x))) g.name 0 = f g := by
  induction goods with
  | nil => cases hg
  | cons a t ih =>
    simp only [List.map_cons, List.nodup_cons] at hnd
    rw [List.map_cons, lookupD_cons]
    rcases List.mem_cons.mp hg with rfl | hgt
    · simp
    · have hne : (a.name == g.name) = false :=
        beq_eq_false_iff_ne.mpr
          (fun he => hnd.1 (he ▸ List.mem_map_of_mem Good.name hgt))
      rw [hne]
      exact ih hgt hnd.2

/-- The inner effect fold of `generate_market_data` is linear in its
starting value. -/
lemma effects_foldl_mul (effects : List Effect) (gt : String) (init : ℚ) :
    effects.foldl
      (fun b e =>
        if e.type == "price_modifier" && e.good_type == gt then b * e.multiplier
        else b) init
      = init * effects.foldl
        (fun b e =>
          if e.type == "price_modifier" && e.good_type == gt then b * e.multiplier
          else b) 1 := by
  induction effects generalizing init with
  | nil => simp
  | cons a t ih =>
    simp only [List.foldl_cons]
    by_cases h : (a.type == "price_modifier" && a.good_type == gt) = true
    · rw [if_pos h, if_pos h, ih (init * a.multiplier), ih (1 * a.multiplier)]
      ring
    · rw [if_neg h, if_neg h]
      exact ih init

/-- The outer multiplier-product fold is linear in its starting value. -/
lemma acc_foldl_mul (gt : String) (l : List Event) (init : ℚ) :
    l.foldl
      (fun acc ev => acc * ev.effects.foldl
        (fun b e =>
          if e.type == "price_modifier" && e.good_type == gt then b * e.multiplier
          else b) 1) init
      = init * l.foldl
        (fun acc ev => acc * ev.effects.foldl
          (fun b e =>
            if e.type == "price_modifier" && e.good_type == gt then b * e.multiplier
            else b) 1) 1 := by
  induction l generalizing init with
  | nil => simp
  | cons a t ih =>
    simp only [List.foldl_cons]
    rw [ih (init * _), ih (1 * _)]
    ring

/-- Peeling one event off the spec-style multiplier product. -/
lemma eventPriceFactor_cons (gt : String) (ev : Event) (t : List Event) :
    eventPriceFactor gt (ev :: t)
      = (ev.effects.foldl
          (fun b e =>
            if e.type == "price_modifier" && e.good_type == gt then b * e.multiplier
            else b) 1) * eventPriceFactor gt t := by
  rw [eventPriceFactor, eventPriceFactor, List.foldl_cons, acc_foldl_mul]
  ring

/-- The nested fold of `generate_market_data` is its starting value times
the spec-style product of matching event multipliers. -/
lemma events_foldl_mul (gt : String) (active : List Event) (init : ℚ) :
    active.foldl
      (fun pm ev => ev.effects.foldl
        (fun pm' e =>
          if e.type == "price_modifier" && e.good_type == gt then pm' * e.multiplier
          else pm') pm) init
      = init * eventPriceFactor gt active := by
  induction active generalizing init with
  | nil => simp [eventPriceFactor]
  | cons ev t ih =>
    simp only [List.foldl_cons]
    rw [effects_foldl_mul ev.effects gt init, ih, eventPriceFactor_cons]
    ring

/-- The price modifier the code computes is the tech-level modifier times
the commutative product of all matching event multipliers. -/
lemma priceModifierFor_eq (cfg : Config) (tech : ℤ) (g : Good) (active : List Event) :
    priceModifierFor cfg tech g active
      = cfg.tech_level_modifiers tech g.type * eventPriceFactor g.type active := by
  rw [priceModifierFor, events_foldl_mul]

/-- Counterexample to C1 as stated: with base price 10, modifier 1 and the
in-band draw u = 1.09, the code's `int()` truncation prices the good at
10, while the claimed `round(base_price × price_modifier × u)` is 11. -/
theorem generate_market_price_not_round :
    lookupD (generate_market_data wConfig 0 [] c1Draws).prices "Ore" 0 = 10 ∧
    round ((wOre.base_price : ℚ) * priceModifierFor wConfig 0 wOre [] *
      c1Draws.priceU "Ore") = 11 ∧
    lookupD (generate_market_data wConfig 0 [] c1Draws).prices "Ore" 0 ≠
      round ((wOre.base_price : ℚ) * priceModifierFor wConfig 0 wOre [] *
        c1Draws.priceU "Ore") := by
  have harg : (wOre.base_price : ℚ) * priceModifierFor wConfig 0 wOre [] *
      c1Draws.priceU "Ore" = (109/10 : ℚ) := by
    norm_num [wOre, priceModifierFor, wConfig, c1Draws]
  have h1 : lookupD (generate_market_data wConfig 0 [] c1Draws).prices "Ore" 0 = 10 := by
    show lookupD [("Ore", pyInt ((wOre.base_price : ℚ) *
      priceModifierFor wConfig 0 wOre [] * c1Draws.priceU "Ore"))] "Ore" 0 = 10
    rw [lookupD_cons]
    simp only [beq_self_eq_true, if_true, ite_true]
    rw [harg, pyInt_of_nonneg _ (by norm_num)]
    norm_num
  have h2 : round ((wOre.base_price : ℚ) * priceModifierFor wConfig 0 wOre [] *
      c1Draws.priceU "Ore") = 11 := by
    rw [harg, round_eq]
    norm_num
  exact ⟨h1, h2, by rw [h1, h2]; norm_num⟩

/-- C1 (amended): the final price is the Python `int` truncation — not a
rounding — of base_price × price_modifier × u; the price modifier is the
tech-level modifier multiplied by the product of the multipliers of all
matching active price effects; and with no active events and a draw u in
[0.9, 1.1] the price lies in the truncated band (0.9·X − 1, 1.1·X] around
X = base_price × tech-level modifier. -/
theorem generate_market_price_spec (cfg : Config) (tech : ℤ) (active : List Event)
    (md : MarketDraws) (g : Good) (hg : g ∈ cfg.goods)
    (hnd : (cfg.goods.map Good.name).Nodup) :
    lookupD (generate_market_data cfg tech active md).prices g.name 0
      = pyInt ((g.base_price : ℚ) * priceModifierFor cfg tech g active *
          md.priceU g.name) ∧
    priceModifierFor cfg tech g active
      = cfg.tech_level_modifiers tech g.type * eventPriceFactor g.type active ∧
    (active = [] → 0 ≤ (g.base_price : ℚ) * cfg.tech_level_modifiers tech g.type →
      9/10 ≤ md.priceU g.name → md.priceU g.name ≤ 11/10 →
      (9/10 : ℚ) * ((g.base_price : ℚ) * cfg.tech_level_modifiers tech g.type) - 1
          < (lookupD (generate_market_data cfg tech active md).prices g.name 0 : ℚ) ∧
        (lookupD (generate_market_data cfg tech active md).prices g.name 0 : ℚ)
          ≤ (11/10 : ℚ) * ((g.base_price : ℚ) * cfg.tech_level_modifiers tech g.type)) := by
  have h1 : lookupD (generate_market_data cfg tech active md).prices g.name 0
      = pyInt ((g.base_price : ℚ) * priceModifierFor cfg tech g active *
          md.priceU g.name) := by
    show lookupD (cfg.goods.map (fun x => (x.name,
      pyInt ((x.base_price : ℚ) * priceModifierFor cfg tech x active *
        md.priceU x.name)))) g.name 0 = _
    exact lookupD_map_goods _ hg hnd
  refine ⟨h1, priceModifierFor_eq cfg tech g active, ?_⟩
  intro hact h0 hu1 hu2
  subst hact
  have hpm : priceModifierFor cfg tech g [] = cfg.tech_level_modifiers tech g.type := rfl
  set X : ℚ := (g.base_price : ℚ) * cfg.tech_level_modifiers tech g.type with hX
  have hu0 : (0:ℚ) ≤ md.priceU g.name := by linarith
  have harg0 : (0:ℚ) ≤ (g.base_price : ℚ) * priceModifierFor cfg tech g [] *
      md.priceU g.name := by
    rw [hpm, ← hX]
    exact mul_nonneg h0 hu0
  have hlow : (9/10 : ℚ) * X ≤ (g.base_price : ℚ) * priceModifierFor cfg tech g [] *
      md.priceU g.name := by
    rw [hpm, ← hX, mul_comm ((9:ℚ)/10) X]
    exact mul_le_mul_of_nonneg_left hu1 h0
  have hhigh : (g.base_price : ℚ) * priceModifierFor cfg tech g [] *
      md.priceU g.name ≤ (11/10 : ℚ) * X := by
    rw [hpm, ← hX, mul_comm ((11:ℚ)/10) X]
    exact mul_le_mul_of_nonneg_left hu2 h0
  rw [h1, pyInt_of_nonneg _ harg0]
  constructor
  · have := Int.sub_one_lt_floor ((g.base_price : ℚ) * priceModifierFor cfg tech g [] *
      md.priceU g.name)
    push_cast
    push_cast at this
    linarith
  · have := Int.floor_le ((g.base_price : ℚ) * priceModifierFor cfg tech g [] *
      md.priceU g.name)
    push_cast
    linarith

/-- Witness for C1 (amended): on the witness configuration with draw 1 the
Ore price evaluates to 10, and the band bounds hold at X = 10. -/
theorem generate_market_price_spec_witness :
    lookupD (generate_market_data wConfig 0 [] wDraws).prices wOre.name 0 = 10 ∧
    (9/10 : ℚ) * ((wOre.base_price : ℚ) * wConfig.tech_level_modifiers 0 wOre.type) - 1
      < (lookupD (generate_market_data wConfig 0 [] wDraws).prices wOre.name 0 : ℚ) := by
  have h := generate_market_price_spec wConfig 0 [] wDraws wOre (by decide) (by decide)
  constructor
  · rw [h.1]
    have harg : (wOre.base_price : ℚ) * priceModifierFor wConfig 0 wOre [] *
        wDraws.priceU wOre.name = ((10 : ℤ) : ℚ) := by
      norm_num [wOre, priceModifierFor, wConfig, wDraws]
    rw [harg, pyInt_intCast]
  · exact (h.2.2 rfl (by norm_num [wConfig, wOre]) (by norm_num [wDraws])
      (by norm_num [wDraws])).1

/-- Updating a planet's market rewrites the entry `find?` locates for the
player's location. -/
lemma find?_updateMarket {planets : List Planet} {loc : String} {mk : Market}
    {P : Planet} (hfind : planets.find? (fun p => p.name == loc) = some P) :
    (updateMarket planets loc mk).find? (fun p => p.name == loc)
      = some { P with market := mk } := by
  rw [updateMarket, List.find?_map]
  have hcomp : ((fun p => p.name == loc) ∘ (fun p : Planet =>
      if p.name == loc then { p with market := mk } else p)) = fun p => p.name == loc := by
    funext p
    cases h : (p.name == loc) with
    | true => simp [h, eq_of_beq h]
    | false => simp [h, beq_eq_false_iff_ne.mp h]
  rw [hcomp, hfind]
  have hp := @List.find?_some Planet (fun p => p.name == loc) P planets hfind
  simp only [Option.map_some', if_pos hp]

/-- The market of any state whose planet list is an `updateMarket` at the
player's location is the market just written. -/
lemma marketOf_update_eq {planets : List Planet} {loc : String} {mk : Market}
    {P : Planet} (hfind : planets.find? (fun p => p.name == loc) = some P)
    (s' : GameState) (hp : s'.planets = updateMarket planets loc mk)
    (hl : s'.player.location = loc) :
    marketOf s' = mk := by
  rw [marketOf, hp, hl, find?_updateMarket hfind]

/-- Characterization of a successful purchase: with a valid menu choice, a
positive quantity within stock, enough credits and enough cargo space,
`buy_goods` debits the total cost, adds the cargo, and decrements the
market's stock entry by exactly the quantity bought. -/
lemma buy_goods_success (cfg : Config) (s : GameState) (choice q : ℤ)
    (hc1 : 0 ≤ choice) (hc2 : choice < (tradableGoods s).length)
    (hq : 0 < q)
    (hstock : q ≤ lookupD (marketOf s).stock ((tradableGoods s).getD choice.toNat "") 0)
    (hcred : lookupD (marketOf s).prices ((tradableGoods s).getD choice.toNat "") 0 * q
      ≤ s.player.credits)
    (hspace : get_cargo_count s.player.ship.cargo + q
      ≤ cargo_hold_size cfg s.player.ship) :
    buy_goods cfg s choice q =
      ({ s with
        player := { s.player with
          credits := s.player.credits -
            lookupD (marketOf s).prices ((tradableGoods s).getD choice.toNat "") 0 * q
          ship := { s.player.ship with
            cargo := add_cargo (cargo_hold_size cfg s.player.ship)
              s.player.ship.cargo ((tradableGoods s).getD choice.toNat "") q } }
        planets := (updateMarket s.planets s.player.location
          { marketOf s with stock := (setKey (marketOf s).stock
              ((tradableGoods s).getD choice.toNat "")
              (lookupD (marketOf s).stock ((tradableGoods s).getD choice.toNat "") 0
                - q)) }) },
        .bought q
          (lookupD (marketOf s).prices ((tradableGoods s).getD choice.toNat "") 0 * q)) := by
  have htrad : ((marketOf s).prices.filter
      (fun p => lookupD (marketOf s).stock p.1 0 > 0)).map (fun p => p.1)
      = tradableGoods s := rfl
  have hempty : ¬((tradableGoods s).isEmpty = true) := by
    rw [List.isEmpty_iff]
    intro h
    rw [h] at hc2
    simp only [List.length_nil, Nat.cast_zero] at hc2
    omega
  have hneq : ¬(choice = ((tradableGoods s).length : ℤ)) := by omega
  simp only [buy_goods, htrad]
  rw [if_neg hempty, if_neg hneq, if_pos ⟨hc1, hc2⟩, if_neg (by omega : ¬(q ≤ 0)),
    if_neg (not_lt.mpr hstock), if_neg (not_lt.mpr hcred), if_neg (not_lt.mpr hspace)]

/-- Characterization of a successful sale: with a valid menu choice and a
positive quantity not exceeding the carried amount, `sell_goods` credits
the sale, removes the cargo, and increments the market's stock entry by
exactly the quantity sold. -/
lemma sell_goods_success (cfg : Config) (s : GameState) (choice q : ℤ)
    (hc1 : 0 ≤ choice) (hc2 : choice < (sellableGoods s).length)
    (hq : 0 < q)
    (hcur : q ≤ lookupD s.player.ship.cargo ((sellableGoods s).getD choice.toNat "") 0) :
    sell_goods cfg s choice q =
      ({ s with
        player := { s.player with
          credits := s.player.credits +
            lookupD (marketOf s).prices ((sellableGoods s).getD choice.toNat "") 0 * q
          ship := { s.player.ship with
            cargo := remove_cargo s.player.ship.cargo
              ((sellableGoods s).getD choice.toNat "") q } }
        planets := (updateMarket s.planets s.player.location
          { marketOf s with stock := (setKey (marketOf s).stock
              ((sellableGoods s).getD choice.toNat "")
              (lookupD (marketOf s).stock ((sellableGoods s).getD choice.toNat "") 0
                + q)) }) },
        .sold q
          (lookupD (marketOf s).prices ((sellableGoods s).getD choice.toNat "") 0 * q)) := by
  have hsell : (s.player.ship.cargo.filter
      (fun p => containsKey (marketOf s).prices p.1)).map (fun p => p.1)
      = sellableGoods s := rfl
  have hselne : ¬((sellableGoods s).isEmpty = true) := by
    rw [List.isEmpty_iff]
    intro h
    rw [h] at hc2
    simp only [List.length_nil, Nat.cast_zero] at hc2
    omega
  have hcargone : ¬(s.player.ship.cargo.isEmpty = true) := by
    rw [List.isEmpty_iff]
    intro h
    apply hselne
    rw [List.isEmpty_iff, ← hsell, h]
    rfl
  have hneq : ¬(choice = ((sellableGoods s).length : ℤ)) := by omega
  simp only [sell_goods, hsell]
  rw [if_neg hcargone, if_neg hselne, if_neg hneq, if_pos ⟨hc1, hc2⟩,
    if_neg (by omega : ¬(q ≤ 0)), if_neg (not_lt.mpr hcur)]

/-- Adding cargo that fits raises the good's entry by exactly the added
quantity. -/
lemma lookupD_add_cargo_self {hold : ℤ} {c : List (String × ℤ)} {g : String} {q : ℤ}
    (hsp : get_cargo_count c + q ≤ hold) :
    lookupD (add_cargo hold c g q) g 0 = lookupD c g 0 + q := by
  rw [add_cargo, if_neg (not_lt.mpr hsp), lookupD_setKey_self]

/-- C9: a successful buy of q units decrements exactly that good's market
stock by exactly q (other goods untouched), a successful sell of q units
of the same good at the unchanged market increments it by exactly q, and
so the buy-then-sell round trip returns the stock to its pre-buy level. -/
theorem buy_sell_stock_roundtrip (cfg : Config) (s : GameState) (choice q choice' : ℤ)
    (P : Planet)
    (hfind : s.planets.find? (fun p => p.name == s.player.location) = some P)
    (hc1 : 0 ≤ choice) (hc2 : choice < (tradableGoods s).length) (hq : 0 < q)
    (g : String) (hg : g = (tradableGoods s).getD choice.toNat "")
    (hstock : q ≤ lookupD (marketOf s).stock g 0)
    (hcred : lookupD (marketOf s).prices g 0 * q ≤ s.player.credits)
    (hspace : get_cargo_count s.player.ship.cargo + q ≤ cargo_hold_size cfg s.player.ship)
    (hold0 : 0 ≤ lookupD s.player.ship.cargo g 0)
    (s' : GameState) (hs' : s' = (buy_goods cfg s choice q).1)
    (hc1' : 0 ≤ choice') (hc2' : choice' < (sellableGoods s').length)
    (hsell : (sellableGoods s').getD choice'.toNat "" = g) :
    (buy_goods cfg s choice q).2 = .bought q (lookupD (marketOf s).prices g 0 * q) ∧
    lookupD (marketOf s').stock g 0 = lookupD (marketOf s).stock g 0 - q ∧
    (∀ g', g' ≠ g → lookupD (marketOf s').stock g' 0 = lookupD (marketOf s).stock g' 0) ∧
    (sell_goods cfg s' choice' q).2 = .sold q (lookupD (marketOf s').prices g 0 * q) ∧
    lookupD (marketOf (sell_goods cfg s' choice' q).1).stock g 0
      = lookupD (marketOf s).stock g 0 := by
  subst hg
  subst hs'
  have hbuy := buy_goods_success cfg s choice q hc1 hc2 hq hstock hcred hspace
  have hplanets' : (buy_goods cfg s choice q).1.planets
      = updateMarket s.planets s.player.location
        { marketOf s with stock := (setKey (marketOf s).stock
            ((tradableGoods s).getD choice.toNat "")
            (lookupD (marketOf s).stock ((tradableGoods s).getD choice.toNat "") 0
              - q)) } := by
    rw [hbuy]
  have hloc' : (buy_goods cfg s choice q).1.player.location = s.player.location := by
    rw [hbuy]
  have hms' : marketOf (buy_goods cfg s choice q).1
      = { marketOf s with stock := (setKey (marketOf s).stock
          ((tradableGoods s).getD choice.toNat "")
          (lookupD (marketOf s).stock ((tradableGoods s).getD choice.toNat "") 0
            - q)) } :=
    marketOf_update_eq hfind _ hplanets' hloc'
  have hB : lookupD (marketOf (buy_goods cfg s choice q).1).stock
      ((tradableGoods s).getD choice.toNat "") 0
      = lookupD (marketOf s).stock ((tradableGoods s).getD choice.toNat "") 0 - q := by
    rw [hms']
    exact lookupD_setKey_self _ _ _ _
  have hcargo' : (buy_goods cfg s choice q).1.player.ship.cargo
      = add_cargo (cargo_hold_size cfg s.player.ship) s.player.ship.cargo
        ((tradableGoods s).getD choice.toNat "") q := by
    rw [hbuy]
  have hcur' : q ≤ lookupD (buy_goods cfg s choice q).1.player.ship.cargo
      ((sellableGoods (buy_goods cfg s choice q).1).getD choice'.toNat "") 0 := by
    rw [hsell, hcargo', lookupD_add_cargo_self hspace]
    omega
  have hsellS := sell_goods_success cfg (buy_goods cfg s choice q).1 choice' q
    hc1' hc2' hq hcur'
  have hfind' : (buy_goods cfg s choice q).1.planets.find?
      (fun p => p.name == (buy_goods cfg s choice q).1.player.location)
      = some { P with market := { marketOf s with stock := (setKey (marketOf s).stock
          ((tradableGoods s).getD choice.toNat "")
          (lookupD (marketOf s).stock ((tradableGoods s).getD choice.toNat "") 0
            - q)) } } := by
    rw [hloc', hplanets']
    exact find?_updateMarket hfind
  have hms'' : marketOf (sell_goods cfg (buy_goods cfg s choice q).1 choice' q).1
      = { marketOf (buy_goods cfg s choice q).1 with
          stock := (setKey (marketOf (buy_goods cfg s choice q).1).stock
            ((sellableGoods (buy_goods cfg s choice q).1).getD choice'.toNat "")
            (lookupD (marketOf (buy_goods cfg s choice q).1).stock
              ((sellableGoods (buy_goods cfg s choice q).1).getD choice'.toNat "") 0
              + q)) } := by
    refine marketOf_update_eq hfind' _ ?_ ?_
    · rw [hsellS]
    · rw [hsellS]
  refine ⟨?_, hB, ?_, ?_, ?_⟩
  · rw [hbuy]
  · intro g' hne
    rw [hms']
    exact lookupD_setKey_ne _ _ _ hne
  · rw [hsellS, hsell]
  · rw [hms'', hsell, lookupD_setKey_self, hB]
    omega

/-- Witness for C9: buying 3 Ore at planet A takes the stock from 100 to
97, and selling the 3 back at the same market restores it to 100. -/
theorem buy_sell_stock_roundtrip_witness :
    lookupD (marketOf (buy_goods wConfig tradeState 0 3).1).stock "Ore" 0 = 97 ∧
    lookupD (marketOf
      (sell_goods wConfig (buy_goods wConfig tradeState 0 3).1 0 3).1).stock "Ore" 0
      = 100 := by
  have h := buy_sell_stock_roundtrip wConfig tradeState 0 3 0 wPlanetA (by decide)
    (by decide) (by decide) (by decide) "Ore" (by decide) (by decide) (by decide)
    (by decide) (by decide) _ rfl (by decide) (by decide) (by decide)
  refine ⟨?_, ?_⟩
  · rw [h.2.1]
    decide
  · rw [h.2.2.2.2]
    decide

/-- Interest accrual does not touch the ship. -/
lemma apply_interest_ship (cfg : Config) (x : GameState) :
    (apply_interest cfg x).player.ship = x.player.ship := by
  rw [apply_interest]
  split <;> rfl

/-- Interest accrual does not touch the credits. -/
lemma apply_interest_credits (cfg : Config) (x : GameState) :
    (apply_interest cfg x).player.credits = x.player.credits := by
  rw [apply_interest]
  split <;> rfl

/-- Interest accrual does not touch the current mission. -/
lemma apply_interest_mission (cfg : Config) (x : GameState) :
    (apply_interest cfg x).player.current_mission = x.player.current_mission := by
  rw [apply_interest]
  split <;> rfl

/-- C4: in a turn starting with no fuel, no credits and an empty hold, if
the post-interest, post-mission-check state is neither a win nor a debt
loss, the engine reaches the stranding branch before any command is
dispatched: declining the loan ends the game in the stranding loss, while
accepting adds exactly the configured loan amount to both credits and debt
(the credits at the offer being the turn-start credits) and play goes on
to the command dispatch. -/
theorem stranding_loan_spec (cfg : Config) (s : GameState) (trig : Option ℕ)
    (accept : Bool) (cmd : Command)
    (hf : s.player.ship.fuel ≤ 0) (hc : s.player.credits ≤ 0)
    (hcc : s.player.ship.cargo = [])
    (hq : ∀ m, s.player.current_mission = some m → 1 ≤ m.quantity)
    (hw : ¬ winCond cfg (missionPhase (apply_interest cfg (handle_events cfg s trig))))
    (hl : ¬ lossCond cfg (missionPhase (apply_interest cfg (handle_events cfg s trig)))) :
    preCommand cfg s trig accept =
      (if accept then
        PhaseResult.playing (issue_loan cfg
          (missionPhase (apply_interest cfg (handle_events cfg s trig))))
      else PhaseResult.lostToStranding) ∧
    (issue_loan cfg
        (missionPhase (apply_interest cfg (handle_events cfg s trig)))).player.credits
      = (missionPhase (apply_interest cfg
          (handle_events cfg s trig))).player.credits + cfg.loan_amount ∧
    (issue_loan cfg
        (missionPhase (apply_interest cfg (handle_events cfg s trig)))).player.debt
      = (missionPhase (apply_interest cfg
          (handle_events cfg s trig))).player.debt + cfg.loan_amount ∧
    (missionPhase (apply_interest cfg (handle_events cfg s trig))).player.credits
      = s.player.credits ∧
    gameStep cfg s ⟨trig, accept, cmd⟩ =
      (if accept then
        StepResult.playing (dispatch cfg (issue_loan cfg
          (missionPhase (apply_interest cfg (handle_events cfg s trig)))) cmd)
      else StepResult.lostToStranding) := by
  set T0 := apply_interest cfg (handle_events cfg s trig) with hT0
  have hship : T0.player.ship = s.player.ship := by
    rw [hT0, apply_interest_ship]
    rfl
  have hcred0 : T0.player.credits = s.player.credits := by
    rw [hT0, apply_interest_credits]
    rfl
  have hmiss0 : T0.player.current_mission = s.player.current_mission := by
    rw [hT0, apply_interest_mission]
    rfl
  have hmp : missionPhase T0 = T0 := by
    rw [missionPhase]
    cases hcm : T0.player.current_mission with
    | none => rfl
    | some m =>
      show (if T0.player.location = m.destination ∧
          lookupD T0.player.ship.cargo m.good.name 0 ≥ m.quantity then
        complete_mission T0 else T0) = T0
      have hlk : lookupD T0.player.ship.cargo m.good.name 0 = 0 := by
        rw [hship, hcc]
        rfl
      have hq1 : 1 ≤ m.quantity := hq m (by rw [← hmiss0, hcm])
      exact if_neg (fun hand => by rw [hlk] at hand; omega)
  have hstr : strandCond (missionPhase T0) := by
    rw [hmp]
    refine ⟨by rw [hship]; exact hf, by rw [hcred0]; exact hc, by rw [hship, hcc]; rfl⟩
  have hkey : preCommand cfg s trig accept = checkPhase cfg (missionPhase T0) accept := rfl
  have h1 : preCommand cfg s trig accept =
      (if accept then PhaseResult.playing (issue_loan cfg (missionPhase T0))
       else PhaseResult.lostToStranding) := by
    rw [hkey, checkPhase, if_neg hw, if_neg hl, if_pos hstr]
  refine ⟨h1, rfl, rfl, by rw [hmp, hcred0], ?_⟩
  have hpre : gameStep cfg s ⟨trig, accept, cmd⟩ =
      match preCommand cfg s trig accept with
      | .won => .won
      | .lostToDebt => .lostToDebt
      | .lostToStranding => .lostToStranding
      | .playing s1 => .playing (dispatch cfg s1 cmd) := rfl
  rw [hpre, h1]
  cases accept with
  | false => rfl
  | true => rfl

/-- Witness for C4: the stranded state (fuel 0, credits 0, empty hold)
loses to stranding when the loan is declined, and accepting would leave
500 credits and 500 debt (the configured loan amount). -/
theorem stranding_loan_spec_witness :
    preCommand wConfig strandState none false = PhaseResult.lostToStranding ∧
    (issue_loan wConfig (missionPhase (apply_interest wConfig
      (handle_events wConfig strandState none)))).player.credits = 500 ∧
    (issue_loan wConfig (missionPhase (apply_interest wConfig
      (handle_events wConfig strandState none)))).player.debt = 500 := by
  have h := stranding_loan_spec wConfig strandState none false Command.statusCmd
    (by decide) (by decide) (by decide) (fun m hm => nomatch hm) (by decide) (by decide)
  refine ⟨?_, by decide, by decide⟩
  rw [h.1]
  rfl

/-- On the witness configuration with unit draws, market generation at
tech level 0 with no active events produces exactly `wMarket`. -/
lemma wConfig_market : generate_market_data wConfig 0 [] wDraws = wMarket := by
  have hprice : pyInt ((wOre.base_price : ℚ) * priceModifierFor wConfig 0 wOre [] *
      wDraws.priceU wOre.name) = 10 := by
    rw [show ((wOre.base_price : ℚ) * priceModifierFor wConfig 0 wOre [] *
        wDraws.priceU wOre.name) = ((10 : ℤ) : ℚ) from by
      norm_num [wOre, priceModifierFor, wConfig, wDraws], pyInt_intCast]
  have hstock : max 0 (pyInt ((wOre.base_stock : ℚ) *
      (if priceModifierFor wConfig 0 wOre [] ≠ 0 then
        1 / priceModifierFor wConfig 0 wOre [] else 100) *
      wDraws.stockU wOre.name)) = 100 := by
    rw [show ((wOre.base_stock : ℚ) *
        (if priceModifierFor wConfig 0 wOre [] ≠ 0 then
          1 / priceModifierFor wConfig 0 wOre [] else 100) *
        wDraws.stockU wOre.name) = ((100 : ℤ) : ℚ) from by
      norm_num [wOre, priceModifierFor, wConfig, wDraws], pyInt_intCast]
    decide
  have hfp : pyInt (wConfig.travel_options.base_fuel_price *
      wConfig.tech_level_modifiers 0 "fuel" * wDraws.fuelU) = 2 := by
    rw [show (wConfig.travel_options.base_fuel_price *
        wConfig.tech_level_modifiers 0 "fuel" * wDraws.fuelU) = ((2 : ℤ) : ℚ) from by
      norm_num [wConfig, wTravelOptions, wDraws], pyInt_intCast]
  have hgoods : wConfig.goods = [wOre] := rfl
  simp only [generate_market_data, hgoods, List.map_cons, List.map_nil]
  rw [hprice, hstock, hfp]
  decide

/-- Setting up a game on the witness configuration yields `tradeState`. -/
lemma wConfig_setup : setup_game wConfig wDraws = some tradeState := by
  have hkey : setup_game wConfig wDraws = some
      { player :=
          { name := "Captain", ship := initial_ship wConfig, location := "A",
            credits := 100, display_mode := "normal",
            reputation := [("FacA", 0), ("FacB", 0)], current_mission := none,
            debt := 0 }
        planets := (updateMarket
          [({ name := "A", tech_level := 0, faction := "FacA", market := emptyMarket,
              mission_board := [] } : Planet),
           ({ name := "B", tech_level := 0, faction := "FacB", market := emptyMarket,
              mission_board := [] } : Planet)]
          "A" (generate_market_data wConfig 0 [] wDraws))
        active_events := [] } := rfl
  rw [hkey, wConfig_market]
  decide

/-- The counterexample trip: from `tradeState` the journey to B costs 5
fuel and the meteor storm drains 15 more, landing on `c5Bad`. -/
lemma c5_travel : travel wConfig tradeState 0 c5TR =
    (c5Bad, TravelOutcome.traveled 5 (some 15)) := by
  have hdest : tradeState.planets.filter (fun p => p.name != tradeState.player.location)
      = [wPlanetB] := by decide
  have hget : List.getD [wPlanetB] (Int.toNat 0) noPlanet = wPlanetB := by decide
  have hae : tradeState.active_events = [] := rfl
  have htech : wPlanetB.tech_level = 0 := rfl
  have hcost : pyInt (wConfig.distance tradeState.player.location wPlanetB.name *
      wConfig.travel_options.base_fuel_cost_per_unit *
      engine_efficiency wConfig tradeState.player.ship) = 5 := by
    rw [show (wConfig.distance tradeState.player.location wPlanetB.name *
        wConfig.travel_options.base_fuel_cost_per_unit *
        engine_efficiency wConfig tradeState.player.ship) = ((5 : ℤ) : ℚ) from by
      norm_num [wConfig, wTravelOptions, engine_efficiency, tradeState, wShip],
      pyInt_intCast]
  simp only [travel, c5TR, hdest, hget, hae, htech, hcost, wConfig_market]
  decide

/-- The counterexample turn leaves the game running in state `c5Bad`. -/
lemma c5_step : gameStep wConfig tradeState c5Input = .playing c5Bad := by
  have hpre : preCommand wConfig tradeState none false = .playing tradeState := by decide
  have hgs : gameStep wConfig tradeState c5Input =
      match preCommand wConfig tradeState none false with
      | .won => .won
      | .lostToDebt => .lostToDebt
      | .lostToStranding => .lostToStranding
      | .playing s1 => .playing (dispatch wConfig s1 c5Input.cmd) := rfl
  rw [hgs, hpre]
  show StepResult.playing (travel wConfig tradeState 0 c5TR).1 = .playing c5Bad
  rw [c5_travel]

/-- The witness configuration is well-formed. -/
lemma wConfig_wf : ConfigWF wConfig := by
  constructor
  · intro a b
    norm_num [wConfig]
  · norm_num [wConfig, wTravelOptions]
  · intro e he
    simp only [wConfig, List.mem_singleton] at he
    rw [he]
    norm_num
  · intro e he
    simp only [wConfig, List.mem_singleton] at he
    rw [he]
    decide
  · intro t ht
    simp only [wConfig, List.mem_singleton] at ht
    rw [ht]
  · decide
  · decide
  · intro e he
    simp only [wConfig, List.mem_cons, List.mem_singleton] at he
    rcases he with he | he | he
    · rw [he]; decide
    · rw [he]; decide
    · cases he
  · intro i j hij hj
    have hj' : j < 2 := by simpa [wConfig] using hj
    interval_cases j <;> interval_cases i <;> decide
  · intro i j hij hj
    have hj' : j < 2 := by simpa [wConfig] using hj
    interval_cases j <;> interval_cases i <;> decide

/-- Counterexample to C5 as stated: from the initial state of the
(well-formed) witness configuration, whose in-transit risk chance is 1,
one legal turn — travelling to B, where the fuel-loss event then fires
for every possible `random.random()` draw — reaches a state whose fuel
is −10, violating the claimed invariant `0 ≤ fuel`. -/
theorem reachable_fuel_negative :
    ConfigWF wConfig ∧
    setup_game wConfig wDraws = some tradeState ∧
    Reaches wConfig tradeState c5Bad ∧
    c5Bad.player.ship.fuel < 0 := by
  refine ⟨wConfig_wf, wConfig_setup, ?_, by decide⟩
  · refine Reaches.step (Reaches.refl tradeState)
      ⟨(fun i hi => Option.noConfusion hi), (fun _ => ?_), ?_⟩ c5_step
    · show wConfig.travel_options.event_trigger_chance < 1
      norm_num [wConfig, wTravelOptions]
    · show 0 ≤ c5TR.riskDraw ∧ c5TR.riskDraw < 1 ∧
        c5TR.eventIdx < wConfig.random_events.length ∧
        (wConfig.random_events.getD c5TR.eventIdx noRandomEvent).amount_min
          ≤ c5TR.fuelLossAmt ∧
        c5TR.fuelLossAmt
          ≤ (wConfig.random_events.getD c5TR.eventIdx noRandomEvent).amount_max
      refine ⟨by norm_num [c5TR], by norm_num [c5TR], ?_⟩
      decide

/-- A positional default lookup either hits a member or the default. -/
lemma getD_mem_or_default {α : Type} (l : List α) (n : ℕ) (d : α) :
    l.getD n d ∈ l ∨ l.getD n d = d := by
  induction l generalizing n with
  | nil => right; rfl
  | cons a t ih =>
    cases n with
    | zero => exact .inl (List.mem_cons_self a t)
    | succ k =>
      rcases ih k with hm | hd
      · exact .inl (List.mem_cons_of_mem a hm)
      · exact .inr hd

/-- A positional default lookup within bounds is a member. -/
lemma getD_mem_of_lt {α : Type} {l : List α} {n : ℕ} (d : α) (hn : n < l.length) :
    l.getD n d ∈ l := by
  induction l generalizing n with
  | nil => cases hn
  | cons a t ih =>
    cases n with
    | zero => exact List.mem_cons_self a t
    | succ k => exact List.mem_cons_of_mem a (ih (Nat.lt_of_succ_lt_succ hn))

/-- Under a well-formed configuration, every engine efficiency the ship
can exhibit is nonnegative (out-of-table levels read the zero default). -/
lemma engine_eff_nonneg {cfg : Config} (hwf : ConfigWF cfg) (sh : Ship) :
    0 ≤ engine_efficiency cfg sh := by
  rw [engine_efficiency]
  rcases getD_mem_or_default cfg.ship_upgrades_engine (sh.engine_level - 1).toNat (0, 0)
    with hm | hd
  · exact hwf.engine_eff_nonneg _ hm
  · rw [hd]

/-- Adding cargo never overflows the hold it was checked against. -/
lemma count_add_cargo_le {hold : ℤ} {c : List (String × ℤ)} {g : String} {q : ℤ}
    (hc : get_cargo_count c ≤ hold) :
    get_cargo_count (add_cargo hold c g q) ≤ hold := by
  rw [add_cargo]
  split
  · exact hc
  · next hguard =>
    have hle : get_cargo_count c + q ≤ hold := by omega
    by_cases hcg : containsKey c g = true
    · rw [count_setKey_of_contains _ hcg]
      omega
    · have hcg' : containsKey c g = false := by
        revert hcg; cases containsKey c g <;> simp
      rw [count_setKey_of_not_contains _ hcg', lookupD_of_not_contains _ hcg']
      omega

/-- Removing a nonnegative quantity never increases the cargo count. -/
lemma count_remove_cargo_le {c : List (String × ℤ)} {g : String} {q : ℤ}
    (hq : 0 ≤ q) :
    get_cargo_count (remove_cargo c g q) ≤ get_cargo_count c := by
  by_cases hcond : containsKey c g = true ∧ lookupD c g 0 ≥ q
  · rw [count_remove_cargo hcond.1 hcond.2]
    omega
  · rw [remove_cargo, if_neg hcond]

/-- Rewriting one planet's market removes no mission from any board. -/
lemma board_q_updateMarket {planets : List Planet} {nm : String} {mk : Market}
    (h : ∀ p ∈ planets, ∀ m ∈ p.mission_board, 1 ≤ m.quantity) :
    ∀ p ∈ updateMarket planets nm mk, ∀ m ∈ p.mission_board, 1 ≤ m.quantity := by
  intro p hp m hm
  obtain ⟨p0, hp0, rfl⟩ := List.mem_map.mp hp
  refine h p0 hp0 m ?_
  by_cases hname : (p0.name == nm) = true
  · rw [if_pos hname] at hm
    exact hm
  · rw [if_neg hname] at hm
    exact hm

/-- Rewriting one planet's board with positive-quantity missions keeps
every board's missions positive. -/
lemma board_q_updateBoard {planets : List Planet} {nm : String} {b : List Mission}
    (h : ∀ p ∈ planets, ∀ m ∈ p.mission_board, 1 ≤ m.quantity)
    (hb : ∀ m ∈ b, 1 ≤ m.quantity) :
    ∀ p ∈ updateBoard planets nm b, ∀ m ∈ p.mission_board, 1 ≤ m.quantity := by
  intro p hp m hm
  obtain ⟨p0, hp0, rfl⟩ := List.mem_map.mp hp
  by_cases hname : (p0.name == nm) = true
  · rw [if_pos hname] at hm
    exact hb m hm
  · rw [if_neg hname] at hm
    exact h p0 hp0 m hm

/-- `currentPlanet` is a listed planet or the placeholder. -/
lemma currentPlanet_mem_or (s : GameState) :
    currentPlanet s ∈ s.planets ∨ currentPlanet s = noPlanet := by
  rw [currentPlanet]
  cases hfind : s.planets.find? (fun p => p.name == s.player.location) with
  | none => exact .inr rfl
  | some P => exact .inl (List.mem_of_find?_eq_some hfind)

/-- Advancing events touches neither player nor planets. -/
lemma inv_handle_events {cfg : Config} {s : GameState} (trig : Option ℕ)
    (h : TurnInv cfg s) : TurnInv cfg (handle_events cfg s trig) :=
  ⟨h.cargo_le, h.fuel_le, h.chl_lb, h.chl_ub, h.ftl_lb, h.ftl_ub, h.board_q, h.cur_q⟩

/-- Interest accrual touches only the debt. -/
lemma inv_apply_interest {cfg : Config} {s : GameState}
    (h : TurnInv cfg s) : TurnInv cfg (apply_interest cfg s) := by
  rw [apply_interest]
  split
  · exact ⟨h.cargo_le, h.fuel_le, h.chl_lb, h.chl_ub, h.ftl_lb, h.ftl_ub, h.board_q,
      h.cur_q⟩
  · exact h

/-- The mission auto-completion check preserves the invariant: completion
removes a positive quantity of cargo, clears the mission, and leaves the
rest alone. -/
lemma inv_missionPhase {cfg : Config} {s : GameState}
    (h : TurnInv cfg s) : TurnInv cfg (missionPhase s) := by
  cases hcm : s.player.current_mission with
  | none =>
    have hred : missionPhase s = s := by rw [missionPhase, hcm]
    rw [hred]
    exact h
  | some m =>
    have hred : missionPhase s = if s.player.location = m.destination ∧
        lookupD s.player.ship.cargo m.good.name 0 ≥ m.quantity then
      complete_mission s else s := by rw [missionPhase, hcm]
    rw [hred]
    split
    · next hcond =>
      have hq1 : 1 ≤ m.quantity := h.cur_q m hcm
      have hcomp : complete_mission s = { s with player := { s.player with
          credits := s.player.credits + m.reward
          reputation := s.player.reputation.map
            (fun p => if p.1 == m.faction then (p.1, p.2 + 1) else p)
          ship := { s.player.ship with
            cargo := remove_cargo s.player.ship.cargo m.good.name m.quantity }
          current_mission := none } } := by
        rw [complete_mission, hcm]
      rw [hcomp]
      refine ⟨?_, h.fuel_le, h.chl_lb, h.chl_ub, h.ftl_lb, h.ftl_ub, h.board_q, ?_⟩
      · show get_cargo_count (remove_cargo s.player.ship.cargo m.good.name m.quantity)
          ≤ cargo_hold_size cfg s.player.ship
        have := count_remove_cargo_le (c := s.player.ship.cargo) (g := m.good.name)
          (by omega : (0:ℤ) ≤ m.quantity)
        have := h.cargo_le
        omega
      · intro m' hm'
        cases hm'
    · exact h

/-- The win/loss/stranding checks can only hand play back in the same
state or with a loan issued, which touches only credits and debt. -/
lemma inv_checkPhase {cfg : Config} {s s1 : GameState} {accept : Bool}
    (h : TurnInv cfg s) (hpc : checkPhase cfg s accept = .playing s1) :
    TurnInv cfg s1 := by
  rw [checkPhase] at hpc
  split at hpc
  · cases hpc
  · split at hpc
    · cases hpc
    · split at hpc
      · split at hpc
        · injection hpc with h1
          subst h1
          exact ⟨h.cargo_le, h.fuel_le, h.chl_lb, h.chl_ub, h.ftl_lb, h.ftl_ub,
            h.board_q, h.cur_q⟩
        · cases hpc
      · injection hpc with h1
        subst h1
        exact h

/-- The whole pre-command phase preserves the invariant. -/
lemma inv_preCommand {cfg : Config} {s s1 : GameState} {trig : Option ℕ}
    {accept : Bool} (h : TurnInv cfg s)
    (hpc : preCommand cfg s trig accept = .playing s1) : TurnInv cfg s1 :=
  inv_checkPhase (inv_missionPhase (inv_apply_interest (inv_handle_events trig h))) hpc

/-- Travel preserves the invariant: fuel only decreases (the route cost is
nonnegative under a well-formed configuration, and the in-transit loss is
nonnegative by hypothesis), and the destination-market rewrite touches no
board. -/
lemma inv_travel {cfg : Config} (hwf : ConfigWF cfg) {s : GameState} (choice : ℤ)
    (tr : TravelRand) (hloss : 0 ≤ tr.fuelLossAmt)
    (h : TurnInv cfg s) : TurnInv cfg (travel cfg s choice tr).1 := by
  have hcost : 0 ≤ pyInt (cfg.distance s.player.location
      ((s.planets.filter (fun p => p.name != s.player.location)).getD choice.toNat
        noPlanet).name *
      cfg.travel_options.base_fuel_cost_per_unit *
      engine_efficiency cfg s.player.ship) :=
    pyInt_nonneg _ (mul_nonneg (mul_nonneg (hwf.dist_nonneg _ _)
      hwf.base_fuel_cost_nonneg) (engine_eff_nonneg hwf _))
  simp only [travel]
  split
  · exact h
  · split
    · split
      · split
        · split
          · -- fuel-loss event applied
            refine ⟨h.cargo_le, ?_, h.chl_lb, h.chl_ub, h.ftl_lb, h.ftl_ub,
              board_q_updateMarket h.board_q, h.cur_q⟩
            show s.player.ship.fuel - _ - tr.fuelLossAmt ≤ fuel_capacity cfg s.player.ship
            have := h.fuel_le
            omega
          · refine ⟨h.cargo_le, ?_, h.chl_lb, h.chl_ub, h.ftl_lb, h.ftl_ub,
              board_q_updateMarket h.board_q, h.cur_q⟩
            show s.player.ship.fuel - _ ≤ fuel_capacity cfg s.player.ship
            have := h.fuel_le
            omega
        · refine ⟨h.cargo_le, ?_, h.chl_lb, h.chl_ub, h.ftl_lb, h.ftl_ub,
            board_q_updateMarket h.board_q, h.cur_q⟩
          show s.player.ship.fuel - _ ≤ fuel_capacity cfg s.player.ship
          have := h.fuel_le
          omega
      · exact h
    · exact h

/-- Buying preserves the invariant: the cargo addition was checked against
the hold, and the market rewrite touches no board. -/
lemma inv_buy {cfg : Config} {s : GameState} (choice q : ℤ)
    (h : TurnInv cfg s) : TurnInv cfg (buy_goods cfg s choice q).1 := by
  simp only [buy_goods]
  split
  · exact h
  · split
    · exact h
    · split
      · split
        · exact h
        · split
          · exact h
          · split
            · exact h
            · split
              · exact h
              · next hspace =>
                refine ⟨?_, h.fuel_le, h.chl_lb, h.chl_ub, h.ftl_lb, h.ftl_ub,
                  board_q_updateMarket h.board_q, h.cur_q⟩
                show get_cargo_count (add_cargo (cargo_hold_size cfg s.player.ship)
                    s.player.ship.cargo _ q) ≤ cargo_hold_size cfg s.player.ship
                exact count_add_cargo_le h.cargo_le
      · exact h

/-- Selling preserves the invariant: removal only shrinks the cargo, and
the market rewrite touches no board. -/
lemma inv_sell {cfg : Config} {s : GameState} (choice q : ℤ)
    (h : TurnInv cfg s) : TurnInv cfg (sell_goods cfg s choice q).1 := by
  simp only [sell_goods]
  split
  · exact h
  · split
    · exact h
    · split
      · exact h
      · split
        · split
          · exact h
          · split
            · exact h
            · next hqpos =>
              refine ⟨?_, h.fuel_le, h.chl_lb, h.chl_ub, h.ftl_lb, h.ftl_ub,
                board_q_updateMarket h.board_q, h.cur_q⟩
              show get_cargo_count (remove_cargo s.player.ship.cargo _ q)
                ≤ cargo_hold_size cfg s.player.ship
              have h1 := count_remove_cargo_le (c := s.player.ship.cargo)
                (g := (sellableGoods s).getD choice.toNat "") (q := q) (by omega)
              have h2 := h.cargo_le
              exact le_trans h1 h2
        · exact h

/-- Refuelling preserves the invariant: the quantity was checked against
the remaining tank space. -/
lemma inv_refuel {cfg : Config} {s : GameState} (q : ℤ)
    (h : TurnInv cfg s) : TurnInv cfg (refuel_ship cfg s q).1 := by
  simp only [refuel_ship]
  split
  · exact h
  · split
    · exact h
    · split
      · exact h
      · split
        · exact h
        · next hover =>
          refine ⟨h.cargo_le, ?_, h.chl_lb, h.chl_ub, h.ftl_lb, h.ftl_ub, h.board_q,
            h.cur_q⟩
          show s.player.ship.fuel + q ≤ fuel_capacity cfg s.player.ship
          omega

/-- Upgrading the cargo hold preserves the invariant: the new level stays
in the (nondecreasing) table, so the hold can only grow. -/
lemma inv_upgrade_cargo {cfg : Config} (hwf : ConfigWF cfg) {s : GameState}
    (h : TurnInv cfg s) : TurnInv cfg (attempt_upgrade_cargo cfg s).1 := by
  simp only [attempt_upgrade_cargo]
  split
  · exact h
  · next hmax =>
    split
    · exact h
    · have hlt : s.player.ship.cargo_hold_level <
          (cfg.ship_upgrades_cargo_hold.length : ℤ) := by omega
      have hlb := h.chl_lb
      refine ⟨?_, h.fuel_le, ?_, ?_, h.ftl_lb, h.ftl_ub, h.board_q, h.cur_q⟩
      · show get_cargo_count s.player.ship.cargo ≤ (cfg.ship_upgrades_cargo_hold.getD
          (s.player.ship.cargo_hold_level + 1 - 1).toNat (0, 0)).1
        rw [show s.player.ship.cargo_hold_level + 1 - 1
          = s.player.ship.cargo_hold_level from by omega]
        have hmono := hwf.cargo_sizes_mono (s.player.ship.cargo_hold_level - 1).toNat
          s.player.ship.cargo_hold_level.toNat (by omega) (by omega)
        have hold := h.cargo_le
        rw [cargo_hold_size] at hold
        omega
      · show (1:ℤ) ≤ s.player.ship.cargo_hold_level + 1
        omega
      · show s.player.ship.cargo_hold_level + 1
          ≤ (cfg.ship_upgrades_cargo_hold.length : ℤ)
        omega

/-- Upgrading the fuel tank preserves the invariant: the new level stays
in the (nondecreasing) table, so the capacity can only grow. -/
lemma inv_upgrade_fuel {cfg : Config} (hwf : ConfigWF cfg) {s : GameState}
    (h : TurnInv cfg s) : TurnInv cfg (attempt_upgrade_fuel cfg s).1 := by
  simp only [attempt_upgrade_fuel]
  split
  · exact h
  · next hmax =>
    split
    · exact h
    · have hlt : s.player.ship.fuel_tank_level <
          (cfg.ship_upgrades_fuel_tank.length : ℤ) := by omega
      have hlb := h.ftl_lb
      refine ⟨h.cargo_le, ?_, h.chl_lb, h.chl_ub, ?_, ?_, h.board_q, h.cur_q⟩
      · show s.player.ship.fuel ≤ (cfg.ship_upgrades_fuel_tank.getD
          (s.player.ship.fuel_tank_level + 1 - 1).toNat (0, 0)).1
        rw [show s.player.ship.fuel_tank_level + 1 - 1
          = s.player.ship.fuel_tank_level from by omega]
        have hmono := hwf.fuel_caps_mono (s.player.ship.fuel_tank_level - 1).toNat
          s.player.ship.fuel_tank_level.toNat (by omega) (by omega)
        have hcap := h.fuel_le
        rw [fuel_capacity] at hcap
        omega
      · show (1:ℤ) ≤ s.player.ship.fuel_tank_level + 1
        omega
      · show s.player.ship.fuel_tank_level + 1
          ≤ (cfg.ship_upgrades_fuel_tank.length : ℤ)
        omega

/-- Upgrading the engine touches no field the invariant tracks. -/
lemma inv_upgrade_engine {cfg : Config} {s : GameState}
    (h : TurnInv cfg s) : TurnInv cfg (attempt_upgrade_engine cfg s).1 := by
  simp only [attempt_upgrade_engine]
  split
  · exact h
  · split
    · exact h
    · exact ⟨h.cargo_le, h.fuel_le, h.chl_lb, h.chl_ub, h.ftl_lb, h.ftl_ub, h.board_q,
        h.cur_q⟩

/-- The shipyard menu preserves the invariant. -/
lemma inv_shipyard {cfg : Config} (hwf : ConfigWF cfg) {s : GameState} (choice : ℤ)
    (h : TurnInv cfg s) : TurnInv cfg (visit_shipyard cfg s choice).1 := by
  simp only [visit_shipyard]
  split
  · exact inv_upgrade_cargo hwf h
  · split
    · exact inv_upgrade_fuel hwf h
    · split
      · exact inv_upgrade_engine h
      · split
        · exact h
        · exact h

/-- Every mission slot the board generation produces asks for a positive
quantity, because the drawn quantity was sampled inside the (positive)
template range. -/
lemma generated_q {cfg : Config} (hwf : ConfigWF cfg) {s : GameState} {planet : Planet}
    {draws : List MissionDraw}
    (hd : ∀ d ∈ draws, d.tidx < cfg.mission_templates.length ∧
      (cfg.mission_templates.getD d.tidx noTemplate).min_quantity ≤ d.quantity ∧
      d.quantity ≤ (cfg.mission_templates.getD d.tidx noTemplate).max_quantity) :
    ∀ m ∈ draws.filterMap (generate_mission cfg s planet), 1 ≤ m.quantity := by
  intro m hm
  obtain ⟨d, hdm, hgen⟩ := List.mem_filterMap.mp hm
  obtain ⟨ht, hq1, _⟩ := hd d hdm
  have htm := hwf.template_qty_pos (cfg.mission_templates.getD d.tidx noTemplate)
    (getD_mem_of_lt _ ht)
  simp only [generate_mission] at hgen
  split at hgen
  · cases hgen
  · split at hgen
    · cases hgen
    · injection hgen with hgen
      rw [← hgen]
      show 1 ≤ d.quantity
      omega

/-- The mission-board operation preserves the invariant: it only rewrites
one board with positive-quantity missions and possibly hands one of them
to the player. -/
lemma inv_mission_board {cfg : Config} (hwf : ConfigWF cfg) {s : GameState}
    (draws : List MissionDraw) (choice : ℤ)
    (hd : ∀ d ∈ draws, d.tidx < cfg.mission_templates.length ∧
      (cfg.mission_templates.getD d.tidx noTemplate).min_quantity ≤ d.quantity ∧
      d.quantity ≤ (cfg.mission_templates.getD d.tidx noTemplate).max_quantity)
    (h : TurnInv cfg s) : TurnInv cfg (view_mission_board cfg s draws choice).1 := by
  have hb0 : ∀ m ∈ (currentPlanet s).mission_board, 1 ≤ m.quantity := by
    rcases currentPlanet_mem_or s with hm | he
    · exact h.board_q _ hm
    · rw [he]
      intro m hm
      cases hm
  have hb1 : ∀ m ∈ (if (currentPlanet s).mission_board.isEmpty then
      draws.filterMap (generate_mission cfg s (currentPlanet s))
      else (currentPlanet s).mission_board), 1 ≤ m.quantity := by
    split
    · exact generated_q hwf hd
    · exact hb0
  have hupd : ∀ L : List Mission, (∀ m ∈ L, 1 ≤ m.quantity) →
      TurnInv cfg { s with planets := (updateBoard s.planets (currentPlanet s).name L) } :=
    fun L hL => ⟨h.cargo_le, h.fuel_le, h.chl_lb, h.chl_ub, h.ftl_lb, h.ftl_ub,
      board_q_updateBoard h.board_q hL, h.cur_q⟩
  simp only [view_mission_board]
  split
  · exact hupd _ hb1
  · set L := (if (currentPlanet s).mission_board.isEmpty then
      draws.filterMap (generate_mission cfg s (currentPlanet s))
      else (currentPlanet s).mission_board) with hL
    split
    · exact hupd L hb1
    · split
      · next hrange =>
        refine ⟨h.cargo_le, h.fuel_le, h.chl_lb, h.chl_ub, h.ftl_lb, h.ftl_ub, ?_, ?_⟩
        · intro p hp m' hm'
          refine board_q_updateBoard (board_q_updateBoard h.board_q hb1) ?_ p hp m' hm'
          intro m'' hm''
          exact hb1 m'' ((List.eraseIdx_sublist _ _).subset hm'')
        · intro m' hm'
          have hmem : L.getD choice.toNat noMission ∈ L :=
            getD_mem_of_lt _ (by omega)
          injection hm' with hm'
          rw [← hm']
          exact hb1 _ hmem
      · split
        · exact hupd L hb1
        · exact hupd L hb1

/-- Debt repayment preserves the invariant: it only moves credits and
debt. -/
lemma inv_repay {cfg : Config} {s : GameState} (amount : ℤ)
    (h : TurnInv cfg s) : TurnInv cfg (repay_debt s amount).1 := by
  simp only [repay_debt]
  split
  · exact h
  · split
    · exact h
    · split
      · split
        · exact h
        · exact ⟨h.cargo_le, h.fuel_le, h.chl_lb, h.chl_ub, h.ftl_lb, h.ftl_ub,
            h.board_q, h.cur_q⟩
      · split
        · exact h
        · exact ⟨h.cargo_le, h.fuel_le, h.chl_lb, h.chl_ub, h.ftl_lb, h.ftl_ub,
            h.board_q, h.cur_q⟩

/-- The display toggle preserves the invariant: it only rewrites the
display mode. -/
lemma inv_toggle {cfg : Config} {s : GameState}
    (h : TurnInv cfg s) : TurnInv cfg (toggle_display s) :=
  ⟨h.cargo_le, h.fuel_le, h.chl_lb, h.chl_ub, h.ftl_lb, h.ftl_ub, h.board_q, h.cur_q⟩

/-- Any single dispatched command with legal random draws preserves the
invariant. -/
lemma inv_dispatch {cfg : Config} (hwf : ConfigWF cfg) {s : GameState}
    {inp : TurnInput} (hok : InputOK cfg inp) (h : TurnInv cfg s) :
    TurnInv cfg (dispatch cfg s inp.cmd) := by
  obtain ⟨-, -, hc⟩ := hok
  cases hcmd : inp.cmd with
  | travelCmd choice tr =>
    rw [hcmd] at hc
    obtain ⟨-, -, hlt, hmin, -⟩ := hc
    exact inv_travel hwf choice tr
      (le_trans (hwf.loss_min_nonneg _ (getD_mem_of_lt _ hlt)) hmin) h
  | buyCmd choice q => exact inv_buy choice q h
  | sellCmd choice q => exact inv_sell choice q h
  | refuelCmd q => exact inv_refuel q h
  | shipyardCmd choice => exact inv_shipyard hwf choice h
  | missionBoardCmd draws choice =>
    rw [hcmd] at hc
    exact inv_mission_board hwf draws choice hc h
  | repayCmd amount => exact inv_repay amount h
  | statusCmd => exact h
  | toggleCmd => exact inv_toggle h
  | invalidCmd => exact h

/-- One full surviving turn of the engine preserves the invariant. -/
lemma inv_gameStep {cfg : Config} (hwf : ConfigWF cfg) {s s' : GameState}
    {inp : TurnInput} (h : TurnInv cfg s) (hok : InputOK cfg inp)
    (hstep : gameStep cfg s inp = .playing s') : TurnInv cfg s' := by
  rw [gameStep] at hstep
  cases hpc : preCommand cfg s inp.trig inp.accept with
  | won =>
    rw [hpc] at hstep
    exact StepResult.noConfusion hstep
  | lostToDebt =>
    rw [hpc] at hstep
    exact StepResult.noConfusion hstep
  | lostToStranding =>
    rw [hpc] at hstep
    exact StepResult.noConfusion hstep
  | playing s1 =>
    rw [hpc] at hstep
    have h2 : StepResult.playing (dispatch cfg s1 inp.cmd) = .playing s' := hstep
    injection h2 with h2
    rw [← h2]
    exact inv_dispatch hwf hok (inv_preCommand h hpc)

/-- The state `setup_game` builds satisfies the invariant: empty cargo,
a full (nonnegative-capacity) tank, level-1 components, empty boards and
no active mission. -/
lemma inv_setup {cfg : Config} (hwf : ConfigWF cfg) {md : MarketDraws}
    {s0 : GameState} (h0 : setup_game cfg md = some s0) : TurnInv cfg s0 := by
  have hclen : 0 < cfg.ship_upgrades_cargo_hold.length :=
    List.length_pos.mpr hwf.cargo_nonempty
  have hflen : 0 < cfg.ship_upgrades_fuel_tank.length :=
    List.length_pos.mpr hwf.fuel_nonempty
  simp only [setup_game] at h0
  split at h0
  · exact Option.noConfusion h0
  · injection h0 with h0
    rw [← h0]
    refine ⟨?_, ?_, le_refl 1,
      (by show (1 : ℤ) ≤ (cfg.ship_upgrades_cargo_hold.length : ℤ); omega),
      le_refl 1,
      (by show (1 : ℤ) ≤ (cfg.ship_upgrades_fuel_tank.length : ℤ); omega), ?_, ?_⟩
    · show get_cargo_count [] ≤ cargo_hold_size cfg (initial_ship cfg)
      have hmem : cfg.ship_upgrades_cargo_hold.getD (((1 : ℤ) - 1).toNat) (0, 0) ∈
          cfg.ship_upgrades_cargo_hold := getD_mem_of_lt _ (by omega)
      have := hwf.cargo_sizes_nonneg _ hmem
      show (0 : ℤ) ≤ (cfg.ship_upgrades_cargo_hold.getD (((1 : ℤ) - 1).toNat) (0, 0)).1
      exact this
    · show (initial_ship cfg).fuel ≤ fuel_capacity cfg (initial_ship cfg)
      show (cfg.ship_upgrades_fuel_tank.getD 0 (0, 0)).1 ≤
        (cfg.ship_upgrades_fuel_tank.getD (((1 : ℤ) - 1).toNat) (0, 0)).1
      exact le_refl _
    · intro p hp m hm
      refine board_q_updateMarket (fun p2 hp2 m2 hm2 => ?_) p hp m hm
      obtain ⟨pc, hpc, rfl⟩ := List.mem_map.mp hp2
      cases hm2
    · intro m hm
      exact Option.noConfusion hm

/-- C5: In every state reachable from the initial state by complete
turn-engine operations (under a well-formed configuration), the sum of
cargo quantities is at most the cargo hold size and the fuel is at most
the fuel capacity. This is the provable part of the claimed invariant:
its lower bound `0 ≤ fuel` is refuted by the reachable fuel-loss
counterexample, so only the two upper bounds hold. -/
theorem reachable_state_invariant (cfg : Config) (hwf : ConfigWF cfg)
    (md : MarketDraws) (s0 s : GameState) (h0 : setup_game cfg md = some s0)
    (hr : Reaches cfg s0 s) :
    get_cargo_count s.player.ship.cargo ≤ cargo_hold_size cfg s.player.ship ∧
    s.player.ship.fuel ≤ fuel_capacity cfg s.player.ship := by
  have hinv : TurnInv cfg s := by
    induction hr with
    | refl => exact inv_setup hwf h0
    | step hr' hok hstep ih => exact inv_gameStep hwf ih hok hstep
  exact ⟨hinv.cargo_le, hinv.fuel_le⟩

/-- The corrected C5 invariant instantiated at the witness
configuration's initial state. -/
theorem reachable_state_invariant_witness :
    get_cargo_count tradeState.player.ship.cargo ≤
      cargo_hold_size wConfig tradeState.player.ship ∧
    tradeState.player.ship.fuel ≤ fuel_capacity wConfig tradeState.player.ship :=
  reachable_state_invariant wConfig wConfig_wf wDraws tradeState tradeState
    wConfig_setup (Reaches.refl tradeState)
